import Mathlib

/-!
# Eventful — a shallow embedding of the event-emitter mixin

This file embeds the listener-registry engine of the repository
(source: `src/unnamed/part_000`, the variant of `eventful` that passes the
`(err, {object, event, listener})` context to the error hook and the
`{listeners, event, args}` payload to the trace hook).

Modelling choices:
* Event identifiers are `Nat` (opaque comparable tokens).
* A listener value is either a `plain` closure, identified by a `Nat` id
  (reference identity: two closures with identical bodies but distinct ids
  are distinct values), or the internal adapter closure allocated by `once`,
  identified by the handle it closes over.
* The behaviour of a plain closure is given by an environment: a body
  (a list of primitive statements executed synchronously) plus, for
  `emitAsync`, an optional deferred rejection for the value it returns.
* The JS `Map<event, Set<Function>>` registry is an association list of
  insertion-ordered duplicate-free listener lists.
* Subscription handles (the closures returned by `on`) are records
  `{event, listener, active}` stored in an allocation list; a handle id is
  its index.
* The host object is a single fixed instance, so the `object` component of
  hook payloads is dropped; hook calls are recorded in logs inside the
  state.  Listener invocations are likewise recorded in a log so that
  "listener f was invoked with args a" is observable.
* `emit` iterates the live `Set`: the model iterates the snapshot taken at
  lookup time and skips entries deleted in the meantime, matching JS `Set`
  iteration for deletions.  Mid-iteration additions (declared unspecified
  behaviour by the design notes) are not exercised by any claim.
* Exceptions are `Nat` tags; fallible execution returns an `Outcome`; a
  fuel parameter bounds recursion through nested `emit` calls, with fuel
  exhaustion a separate outcome.
-/

namespace Eventful

/-- A listener value.  `plain id` is an ordinary closure with reference
identity `id`; `onceAdapter h f` is the internal wrapper allocated by
`once`, closing over subscription handle `h` and the wrapped listener `f`. -/
inductive Listener where
  | plain (id : Nat)
  | onceAdapter (h : Nat) (f : Listener)
deriving DecidableEq, Repr

/-- Primitive statements a plain listener body can perform. -/
inductive Stmt where
  | throwErr (e : Nat)
  | callHandle (h : Nat)
  | onStmt (event : Nat) (l : Listener)
  | offStmt (event : Nat) (l : Listener)
  | emitStmt (event : Nat) (args : List Nat)
deriving DecidableEq, Repr

/-- Result of running a piece of code: normal return, a thrown error, or
fuel exhaustion (a model artefact for unbounded recursion). -/
inductive Outcome where
  | ok
  | err (e : Nat)
  | outOfFuel
deriving DecidableEq, Repr

/-- A subscription handle record: the `(event, listener)` pair and the
mutable `active` flag the returned closure closes over. -/
structure HandleRec where
  event : Nat
  listener : Listener
  active : Bool
deriving DecidableEq, Repr

/-- One recorded call of the trace hook. -/
inductive TraceEntry where
  | onT (event : Nat) (listener : Listener)
  | offT (event : Nat) (listener : Listener)
  | emitT (listeners : List Listener) (event : Nat) (args : List Nat)
  | emitAsyncT (listeners : List Listener) (event : Nat) (args : List Nat)
deriving DecidableEq, Repr

/-- One recorded call of the error hook: the thrown error together with the
`{event, listener}` part of the context (the host is a fixed instance). -/
structure ErrEntry where
  err : Nat
  event : Nat
  listener : Listener
deriving DecidableEq, Repr

/-- One recorded listener invocation: which listener ran, with which
argument list. -/
structure InvEntry where
  listener : Listener
  args : List Nat
deriving DecidableEq, Repr

/-- The registry: `Map<string|symbol, Set<Function>>` as an association
list from event to the insertion-ordered, duplicate-free listener list. -/
abbrev Registry := List (Nat × List Listener)

/-- First-match lookup of an event's entry (JS `map.get(event)`). -/
def lookupEvent : Registry → Nat → Option (List Listener)
  | [], _ => none
  | p :: r, e => if p.1 = e then some p.2 else lookupEvent r e

/-- JS `Set.prototype.add`: appends unless already present (insertion
position of an existing element is kept). -/
def addToSet (ls : List Listener) (l : Listener) : List Listener :=
  if l ∈ ls then ls else ls ++ [l]

/-- JS `Set.prototype.delete`: removes the element if present. -/
def deleteFromSet : List Listener → Listener → List Listener
  | [], _ => []
  | x :: xs, l => if x = l then xs else x :: deleteFromSet xs l

/-- Apply `g` to the listener set stored under event `e` (in JS the `Set`
object held in the `Map` is mutated in place; here the entry is updated). -/
def updateEntry : Registry → Nat → (List Listener → List Listener) → Registry
  | [], _, _ => []
  | p :: r, e, g =>
    if p.1 = e then (p.1, g p.2) :: updateEntry r e g
    else p :: updateEntry r e g

/-- Delete an event's entry (JS `map.delete(event)`). -/
def removeEntry : Registry → Nat → Registry
  | [], _ => []
  | p :: r, e =>
    if p.1 = e then removeEntry r e
    else p :: removeEntry r e

/-- The internal `add` of the source: get-or-create the event's set, then
`Set.add` the listener. -/
def add (r : Registry) (e : Nat) (l : Listener) : Registry :=
  match lookupEvent r e with
  | none => r ++ [(e, [l])]
  | some _ => updateEntry r e fun s => addToSet s l

/-- The internal `remove` of the source: absent entry returns `false`;
otherwise `Set.delete`, drop the entry if the set became empty, and return
whether something was deleted. -/
def remove (r : Registry) (e : Nat) (l : Listener) : Registry × Bool :=
  match lookupEvent r e with
  | none => (r, false)
  | some ls =>
    let deleted := decide (l ∈ ls)
    let ls2 := deleteFromSet ls l
    if ls2.isEmpty then (removeEntry r e, deleted)
    else (updateEntry r e (fun _ => ls2), deleted)

/-- Source `getListeners`: the event's set, or the shared empty set. -/
def getListeners (r : Registry) (e : Nat) : List Listener :=
  match lookupEvent r e with
  | some ls => ls
  | none => []

/-- Source `has`: `map.get(event)?.size > 0 || false`. -/
def has (r : Registry) (e : Nat) : Bool :=
  !(getListeners r e).isEmpty

/-- The full state of one attached emitter instance: the registry, the
allocated subscription handles, and the observation logs (listener
invocations, error-hook calls, trace-hook calls). -/
structure St where
  registry : Registry
  handles : List HandleRec
  invLog : List InvEntry
  errLog : List ErrEntry
  traceLog : List TraceEntry
deriving DecidableEq, Repr

/-- The freshly attached instance: empty registry, no handles, no
observations. -/
def St.empty : St := ⟨[], [], [], [], []⟩

def pushTrace (st : St) (t : TraceEntry) : St :=
  { st with traceLog := st.traceLog ++ [t] }

def pushErr (st : St) (e : Nat) (event : Nat) (l : Listener) : St :=
  { st with errLog := st.errLog ++ [⟨e, event, l⟩] }

def pushInv (st : St) (l : Listener) (args : List Nat) : St :=
  { st with invLog := st.invLog ++ [⟨l, args⟩] }

/-- Behaviour environment for plain listeners, plus the instance's `strict`
option (captured at attachment time): `body id` is what the closure does
synchronously when invoked; `ret id` is `some e` when the value it returns
is a deferred completion that later rejects with `e`, and `none` when its
returned value is treated as an already-resolved completion. -/
structure Env where
  body : Nat → List Stmt
  ret : Nat → Option Nat
  strict : Bool

/-- Source `on`: trace with tag `"on"`, insert into the event's set, allocate the
one-shot handle closing over the `(event, listener)` pair with
`active := true`; returns the handle id. -/
def onOp (st : St) (e : Nat) (l : Listener) : St × Nat :=
  let st1 := pushTrace st (.onT e l)
  let st2 := { st1 with registry := add st1.registry e l }
  ({ st2 with handles := st2.handles ++ [⟨e, l, true⟩] }, st2.handles.length)

/-- Invoking a subscription handle: inert handles return `false`; an active
handle flips to inactive and delegates to `remove`. -/
def handleInvoke (st : St) (h : Nat) : St × Bool :=
  match st.handles[h]? with
  | none => (st, false)
  | some hr =>
    if hr.active then
      let st1 := { st with handles := st.handles.set h { hr with active := false } }
      let rb := remove st1.registry hr.event hr.listener
      ({ st1 with registry := rb.1 }, rb.2)
    else (st, false)

/-- Source `once`: subscribes the internal adapter via `on`; the adapter closes
over the very handle that this `on` call allocates (the next free index). -/
def once (st : St) (e : Nat) (f : Listener) : St × Nat :=
  onOp st e (.onceAdapter st.handles.length f)

/-- Source `off`: trace with tag `"off"`, then `remove`. -/
def off (st : St) (e : Nat) (l : Listener) : St × Bool :=
  let st1 := pushTrace st (.offT e l)
  let rb := remove st1.registry e l
  ({ st1 with registry := rb.1 }, rb.2)

mutual

/-- Run a listener body: statements in order, aborting on a thrown error.
`args` is the argument list the enclosing listener received. -/
def execStmts (env : Env) : Nat → St → List Nat → List Stmt → St × Outcome
  | _, st, _, [] => (st, .ok)
  | fuel, st, args, s :: rest =>
    let r :=
      match s with
      | .throwErr e => (st, Outcome.err e)
      | .callHandle h => ((handleInvoke st h).1, Outcome.ok)
      | .onStmt e l => ((onOp st e l).1, Outcome.ok)
      | .offStmt e l => ((off st e l).1, Outcome.ok)
      | .emitStmt e as =>
        match fuel with
        | 0 => (st, Outcome.outOfFuel)
        | f + 1 => emit env f st e as
    match r.2 with
    | .ok => execStmts env fuel r.1 args rest
    | o => (r.1, o)
termination_by fuel _ _ ss => (fuel, 0, ss.length)

/-- Invoke a listener value with an argument list.  A plain closure runs
its body; the `once` adapter first invokes its own unsubscribe handle and
only then invokes the wrapped listener with the received arguments. -/
def invokeListener (env : Env) : Nat → St → Listener → List Nat → St × Outcome
  | fuel, st, .plain id, args => execStmts env fuel (pushInv st (.plain id) args) args (env.body id)
  | 0, st, .onceAdapter h f, args => (pushInv st (.onceAdapter h f) args, .outOfFuel)
  | fuel + 1, st, .onceAdapter h f, args =>
    let st1 := pushInv st (.onceAdapter h f) args
    invokeListener env fuel (handleInvoke st1 h).1 f args
termination_by fuel _ _ _ => (fuel, 1, 0)

/-- The `for (const listener of listeners)` loop of `emit`, iterating the
snapshot and skipping entries deleted from the live set in the meantime.
A thrown error is reported to the error hook with the `{event, listener}`
context; under `strict` it is re-raised at once, otherwise iteration
continues. -/
def emitLoop (env : Env) : Nat → St → Nat → List Nat → List Listener → St × Outcome
  | _, st, _, _, [] => (st, .ok)
  | fuel, st, e, args, l :: rest =>
    if l ∈ getListeners st.registry e then
      let r := invokeListener env fuel st l args
      match r.2 with
      | .ok => emitLoop env fuel r.1 e args rest
      | .err er =>
        let st2 := pushErr r.1 er e l
        if env.strict then (st2, .err er) else emitLoop env fuel st2 e args rest
      | .outOfFuel => (r.1, .outOfFuel)
    else emitLoop env fuel st e args rest
termination_by fuel _ _ _ ls => (fuel, 2, ls.length)

/-- Source `emit`: look the set up, call the trace hook with tag `"emit"` and the
`{listeners, event, args}` payload unconditionally, return if the set is
empty, otherwise run the listener loop. -/
def emit (env : Env) : Nat → St → Nat → List Nat → St × Outcome
  | fuel, st, e, args =>
    let ls := getListeners st.registry e
    let st1 := pushTrace st (.emitT ls e args)
    if ls.isEmpty then (st1, .ok)
    else emitLoop env fuel st1 e args ls
termination_by fuel _ _ _ => (fuel, 3, 0)

end

unseal execStmts invokeListener emitLoop emit

/-- The deferred completion of the value a listener returns when its
synchronous part did not throw: the adapter returns `undefined` (resolved);
a plain closure's completion is given by the environment. -/
def deferredOf (env : Env) : Listener → Option Nat
  | .plain id => env.ret id
  | .onceAdapter _ _ => none

/-- The `Array.from(listeners).map(...)` phase of `emitAsync`: every
listener of the snapshot is invoked synchronously, in order, inside its
promise executor.  A synchronous throw is reported to the error hook (with
the `{event, listener}` context) and becomes a rejected settlement; a
deferred rejection becomes a rejected settlement without touching the error
hook.  Returns the settlements (`some e` = rejected with `e`), or `none`
on fuel exhaustion. -/
def emitAsyncLoop (env : Env) (fuel : Nat) :
    St → Nat → List Nat → List Listener → St × Option (List (Option Nat))
  | st, _, _, [] => (st, some [])
  | st, e, args, l :: rest =>
    let r := invokeListener env fuel st l args
    match r.2 with
    | .outOfFuel => (r.1, none)
    | .err er =>
      let st2 := pushErr r.1 er e l
      let rr := emitAsyncLoop env fuel st2 e args rest
      (rr.1, rr.2.map fun s => some er :: s)
    | .ok =>
      let rr := emitAsyncLoop env fuel r.1 e args rest
      (rr.1, rr.2.map fun s => deferredOf env l :: s)

/-- The first rejection among the settlements (what `Promise.all` fails
with when the rejections are produced in array order). -/
def firstRejection (ss : List (Option Nat)) : Option Nat :=
  ss.findSome? id

/-- Source `emitAsync`: same lookup and unconditional trace call as `emit` with
tag `"emitAsync"`; if the set is non-empty, all listeners are invoked (in
snapshot order, inside their promise executors) and their settlements
collected; `strict` awaits `Promise.all` (fails on the first rejection),
otherwise `Promise.allSettled` (always resolves). -/
def emitAsync (env : Env) (fuel : Nat) (st : St) (e : Nat) (args : List Nat) :
    St × Outcome :=
  let ls := getListeners st.registry e
  let st1 := pushTrace st (.emitAsyncT ls e args)
  if ls.isEmpty then (st1, .ok)
  else
    let r := emitAsyncLoop env fuel st1 e args ls
    match r.2 with
    | none => (r.1, .outOfFuel)
    | some settles =>
      if env.strict then
        match firstRejection settles with
        | some er => (r.1, .err er)
        | none => (r.1, .ok)
      else (r.1, .ok)

/-! ## The attachment surface (`eventful` itself)

The host is modelled as its list of own properties, each a name paired
with an opaque value tag.  The capability functions installed by
`Object.defineProperties` are modelled as the fixed tags 100–105. -/

/-- A host value: its property list (name, value tag). -/
abbrev Host := List (String × Nat)

/-- Presence check `method in object`. -/
def hostHas (host : Host) (name : String) : Bool :=
  host.any fun p => p.1 = name

/-- The names the collision loop of the source checks. -/
def methodNames : List String :=
  ["on", "once", "off", "emit", "has"]

/-- Model of `Object.defineProperty`: replaces the value of an existing property,
otherwise appends the property. -/
def defineProp (host : Host) (name : String) (v : Nat) : Host :=
  if hostHas host name then host.map fun p => if p.1 = name then (name, v) else p
  else host ++ [(name, v)]

/-- The six capabilities passed to `Object.defineProperties`, with the
opaque tags standing for the freshly created closures. -/
def capabilityProps : List (String × Nat) :=
  [("on", 100), ("once", 101), ("off", 102), ("emit", 103), ("emitAsync", 104), ("has", 105)]

/-- Source `eventful`'s host validation and attachment: throw if any checked name
is present, otherwise define the six capability properties. -/
def eventful (host : Host) : Except String Host :=
  if methodNames.any (fun m => hostHas host m) then
    Except.error "Method already exists."
  else
    Except.ok (capabilityProps.foldl (fun acc p => defineProp acc p.1 p.2) host)

/-! ## Registry lemmas -/

theorem lookupEvent_eq_none {r : Registry} {e : Nat} :
    lookupEvent r e = none ↔ ∀ p ∈ r, ¬ p.1 = e := by
  induction r with
  | nil => simp [lookupEvent]
  | cons p r ih =>
    by_cases h : p.1 = e <;> simp [lookupEvent, h, ih]

theorem lookupEvent_append_none {r r' : Registry} {e : Nat}
    (h : lookupEvent r e = none) :
    lookupEvent (r ++ r') e = lookupEvent r' e := by
  induction r with
  | nil => simp
  | cons p r ih =>
    by_cases hp : p.1 = e
    · simp [lookupEvent, hp] at h
    · simp [lookupEvent, hp] at h ⊢
      exact ih h

theorem lookupEvent_updateEntry (r : Registry) (e e' : Nat)
    (g : List Listener → List Listener) :
    lookupEvent (updateEntry r e g) e'
      = if e' = e then (lookupEvent r e').map g else lookupEvent r e' := by
  induction r with
  | nil => simp [lookupEvent, updateEntry]
  | cons p r ih =>
    by_cases hp : p.1 = e
    · by_cases hpe : p.1 = e'
      · have he : e' = e := by rw [← hpe, hp]
        subst he
        simp [updateEntry, lookupEvent, hp, hpe]
      · have he : ¬ e' = e := fun h => hpe (by rw [hp, ← h])
        have he2 : ¬ e = e' := fun h => he h.symm
        simp [updateEntry, lookupEvent, hp, hpe, he, he2, ih]
    · by_cases hpe : p.1 = e'
      · have he : ¬ e' = e := fun h => hp (by rw [hpe, h])
        simp [updateEntry, lookupEvent, hp, hpe, he]
      · simp [updateEntry, lookupEvent, hp, hpe, ih]

theorem lookupEvent_removeEntry (r : Registry) (e e' : Nat) :
    lookupEvent (removeEntry r e) e'
      = if e' = e then none else lookupEvent r e' := by
  induction r with
  | nil => simp [lookupEvent, removeEntry]
  | cons p r ih =>
    by_cases hp : p.1 = e
    · by_cases hpe : p.1 = e'
      · have he : e' = e := by rw [← hpe, hp]
        subst he
        simp [removeEntry, lookupEvent, hp, hpe] at ih ⊢
        exact ih
      · have he : ¬ e' = e := fun h => hpe (by rw [hp, ← h])
        have he2 : ¬ e = e' := fun h => he h.symm
        simp [removeEntry, lookupEvent, hp, hpe, he, he2, ih]
    · by_cases hpe : p.1 = e'
      · have he : ¬ e' = e := fun h => hp (by rw [hpe, h])
        simp [removeEntry, lookupEvent, hp, hpe, he]
      · simp [removeEntry, lookupEvent, hp, hpe, ih]

theorem lookupEvent_some_mem {r : Registry} {e : Nat} {ls : List Listener}
    (h : lookupEvent r e = some ls) : (e, ls) ∈ r := by
  induction r with
  | nil => simp [lookupEvent] at h
  | cons p r ih =>
    by_cases hp : p.1 = e
    · simp [lookupEvent, hp] at h
      have hpe : p = (e, ls) := by
        cases p with
        | mk a b =>
          simp at hp h
          rw [hp, h]
      exact hpe ▸ List.mem_cons_self p r
    · simp [lookupEvent, hp] at h
      exact List.mem_cons_of_mem _ (ih h)

theorem exists_key_lookup {r : Registry} {e : Nat}
    (h : ∃ p ∈ r, p.1 = e) : ∃ ls, lookupEvent r e = some ls := by
  induction r with
  | nil => simp at h
  | cons p r ih =>
    by_cases hp : p.1 = e
    · exact ⟨p.2, by simp [lookupEvent, hp]⟩
    · obtain ⟨q, hq, hqe⟩ := h
      rcases List.mem_cons.mp hq with rfl | hmem
      · exact absurd hqe hp
      · simpa [lookupEvent, hp] using ih ⟨q, hmem, hqe⟩

theorem lookupEvent_append_single_ne {r : Registry} {e e' : Nat}
    {ls : List Listener} (h : ¬ e' = e) :
    lookupEvent (r ++ [(e, ls)]) e' = lookupEvent r e' := by
  induction r with
  | nil =>
    simp [lookupEvent]
    exact fun hc => h hc.symm
  | cons p r ih =>
    by_cases hp : p.1 = e' <;> simp [lookupEvent, hp, ih]

/-- The single characterisation of `add` at the lookup level. -/
theorem getListeners_add (r : Registry) (e e' : Nat) (l : Listener) :
    getListeners (add r e l) e'
      = if e' = e then addToSet (getListeners r e) l else getListeners r e' := by
  unfold add
  cases hl : lookupEvent r e with
  | none =>
    by_cases he : e' = e
    · subst he
      unfold getListeners
      rw [lookupEvent_append_none hl, hl]
      simp [lookupEvent, addToSet]
    · unfold getListeners
      rw [lookupEvent_append_single_ne he]
      simp [he]
  | some ls =>
    unfold getListeners
    rw [lookupEvent_updateEntry r e e' (fun s => addToSet s l)]
    by_cases he : e' = e
    · subst he
      rw [hl]
      simp
    · simp [he]

theorem getListeners_remove (r : Registry) (e e' : Nat) (l : Listener) :
    getListeners (remove r e l).1 e'
      = if e' = e then deleteFromSet (getListeners r e) l else getListeners r e' := by
  unfold remove
  cases hl : lookupEvent r e with
  | none =>
    by_cases he : e' = e
    · subst he
      simp [getListeners, hl, deleteFromSet]
    · simp [he]
  | some ls =>
    simp only
    by_cases hemp : (deleteFromSet ls l).isEmpty
    · rw [if_pos hemp]
      unfold getListeners
      rw [lookupEvent_removeEntry]
      by_cases he : e' = e
      · subst he
        simp [hl, List.isEmpty_iff.mp hemp]
      · simp [he]
    · rw [if_neg hemp]
      unfold getListeners
      rw [lookupEvent_updateEntry r e e' (fun _ => deleteFromSet ls l)]
      by_cases he : e' = e
      · subst he
        simp [hl]
      · simp [he]

theorem remove_snd (r : Registry) (e : Nat) (l : Listener) :
    (remove r e l).2 = decide (l ∈ getListeners r e) := by
  unfold remove
  cases hl : lookupEvent r e with
  | none => simp [getListeners, hl]
  | some ls =>
    by_cases hemp : (deleteFromSet ls l).isEmpty <;>
      simp [hemp, getListeners, hl]

/-! ## Set lemmas -/

theorem mem_addToSet_self (ls : List Listener) (l : Listener) :
    l ∈ addToSet ls l := by
  unfold addToSet
  by_cases h : l ∈ ls <;> simp [h]

theorem mem_addToSet_mono {ls : List Listener} {g : Listener} (l : Listener)
    (h : g ∈ ls) : g ∈ addToSet ls l := by
  unfold addToSet
  by_cases hm : l ∈ ls <;> simp [hm, h]

theorem addToSet_idem (ls : List Listener) (l : Listener) :
    addToSet (addToSet ls l) l = addToSet ls l := by
  unfold addToSet
  by_cases h : l ∈ ls <;> simp [h]

theorem deleteFromSet_of_not_mem {ls : List Listener} {l : Listener}
    (h : l ∉ ls) : deleteFromSet ls l = ls := by
  induction ls with
  | nil => rfl
  | cons x xs ih =>
    simp at h
    have hx : ¬ x = l := fun hc => h.1 hc.symm
    simp [deleteFromSet, hx, ih h.2]

theorem deleteFromSet_append_self {ls : List Listener} {l : Listener}
    (h : l ∉ ls) : deleteFromSet (ls ++ [l]) l = ls := by
  induction ls with
  | nil => simp [deleteFromSet]
  | cons x xs ih =>
    simp at h
    have hx : ¬ x = l := fun hc => h.1 hc.symm
    simp [deleteFromSet, hx, ih h.2]

theorem mem_deleteFromSet_ne {ls : List Listener} {l g : Listener}
    (h : ¬ g = l) : (g ∈ deleteFromSet ls l ↔ g ∈ ls) := by
  induction ls with
  | nil => simp [deleteFromSet]
  | cons x xs ih =>
    by_cases hx : x = l
    · subst hx
      simp [deleteFromSet, h]
    · simp [deleteFromSet, hx, ih]

theorem not_mem_deleteFromSet {ls : List Listener} {l : Listener}
    (h : ls.Nodup) : l ∉ deleteFromSet ls l := by
  induction ls with
  | nil => simp [deleteFromSet]
  | cons x xs ih =>
    rw [List.nodup_cons] at h
    by_cases hx : x = l
    · subst hx
      simp [deleteFromSet]
      exact h.1
    · simp [deleteFromSet, hx]
      exact ⟨fun hc => hx hc.symm, ih h.2⟩

theorem not_mem_append_single {ls : List Listener} {l g : Listener}
    (h1 : g ∉ ls) (h2 : ¬ g = l) : g ∉ ls ++ [l] := by
  simp [h1, h2]

theorem onceAdapter_ne (h : Nat) (f : Listener) :
    ¬ Listener.onceAdapter h f = f := by
  induction f generalizing h with
  | plain id => exact fun hc => Listener.noConfusion hc
  | onceAdapter h2 f2 ih =>
    intro hc
    injection hc with _ hc2
    exact ih h2 hc2

theorem getElem?_set_of_some {α : Type} {l : List α} {i : Nat} {a : α}
    (b : α) (h : l[i]? = some a) : (l.set i b)[i]? = some b := by
  rcases List.getElem?_eq_some.mp h with ⟨hlt, _⟩
  rw [List.getElem?_set_self']
  simp [List.getElem?_eq_getElem hlt]

theorem updateEntry_eq_self {r : Registry} {e : Nat}
    {g : List Listener → List Listener}
    (h : ∀ p ∈ r, p.1 = e → g p.2 = p.2) : updateEntry r e g = r := by
  induction r with
  | nil => rfl
  | cons p r ih =>
    have ihr := ih fun q hq hqe => h q (List.mem_cons_of_mem p hq) hqe
    by_cases hp : p.1 = e
    · have hv := h p (List.mem_cons_self p r) hp
      simp only [updateEntry, if_pos hp, hv, Prod.mk.eta, ihr]
    · simp only [updateEntry, if_neg hp, ihr]

theorem updateEntry_updateEntry (r : Registry) (e : Nat)
    (g1 g2 : List Listener → List Listener) :
    updateEntry (updateEntry r e g1) e g2
      = updateEntry r e fun s => g2 (g1 s) := by
  induction r with
  | nil => rfl
  | cons p r ih =>
    by_cases hp : p.1 = e <;> simp [updateEntry, hp, ih]

theorem updateEntry_congr (r : Registry) (e : Nat)
    {g1 g2 : List Listener → List Listener}
    (h : ∀ s, g1 s = g2 s) : updateEntry r e g1 = updateEntry r e g2 := by
  induction r with
  | nil => rfl
  | cons p r ih =>
    by_cases hp : p.1 = e <;> simp [updateEntry, hp, ih, h]

theorem lookupEvent_add_self (r : Registry) (e : Nat) (l : Listener) :
    lookupEvent (add r e l) e = some (addToSet (getListeners r e) l) := by
  unfold add
  cases hl : lookupEvent r e with
  | none =>
    rw [lookupEvent_append_none hl]
    simp [lookupEvent, getListeners, hl, addToSet]
  | some ls =>
    rw [lookupEvent_updateEntry]
    simp [hl, getListeners]

theorem add_idem (r : Registry) (e : Nat) (l : Listener) :
    add (add r e l) e l = add r e l := by
  cases hl : lookupEvent r e with
  | none =>
    have h1 : add r e l = r ++ [(e, [l])] := by unfold add; rw [hl]
    rw [h1]
    unfold add
    rw [lookupEvent_append_none hl]
    simp only [lookupEvent, if_pos rfl]
    apply updateEntry_eq_self
    intro p hp hpe
    rcases List.mem_append.mp hp with hm | hm
    · exact absurd hpe (lookupEvent_eq_none.mp hl p hm)
    · simp at hm
      subst hm
      simp [addToSet]
  | some ls =>
    have h1 : add r e l = updateEntry r e fun s => addToSet s l := by
      unfold add; rw [hl]
    rw [h1]
    unfold add
    rw [lookupEvent_updateEntry, hl]
    simp only [if_pos rfl, Option.map_some']
    rw [updateEntry_updateEntry]
    exact updateEntry_congr r e fun s => addToSet_idem s l

/-! ## Behaviour of `emit`/`emitAsync` with no listeners -/

/-! ## Projections of the log-push helpers -/

@[simp] theorem pushTrace_registry (st : St) (t : TraceEntry) :
    (pushTrace st t).registry = st.registry := rfl

@[simp] theorem pushTrace_handles (st : St) (t : TraceEntry) :
    (pushTrace st t).handles = st.handles := rfl

@[simp] theorem pushTrace_invLog (st : St) (t : TraceEntry) :
    (pushTrace st t).invLog = st.invLog := rfl

@[simp] theorem pushTrace_errLog (st : St) (t : TraceEntry) :
    (pushTrace st t).errLog = st.errLog := rfl

@[simp] theorem pushInv_registry (st : St) (l : Listener) (args : List Nat) :
    (pushInv st l args).registry = st.registry := rfl

@[simp] theorem pushInv_handles (st : St) (l : Listener) (args : List Nat) :
    (pushInv st l args).handles = st.handles := rfl

@[simp] theorem pushInv_errLog (st : St) (l : Listener) (args : List Nat) :
    (pushInv st l args).errLog = st.errLog := rfl

@[simp] theorem pushInv_traceLog (st : St) (l : Listener) (args : List Nat) :
    (pushInv st l args).traceLog = st.traceLog := rfl

@[simp] theorem pushErr_registry (st : St) (e ev : Nat) (l : Listener) :
    (pushErr st e ev l).registry = st.registry := rfl

@[simp] theorem pushErr_handles (st : St) (e ev : Nat) (l : Listener) :
    (pushErr st e ev l).handles = st.handles := rfl

@[simp] theorem pushErr_invLog (st : St) (e ev : Nat) (l : Listener) :
    (pushErr st e ev l).invLog = st.invLog := rfl

@[simp] theorem pushErr_traceLog (st : St) (e ev : Nat) (l : Listener) :
    (pushErr st e ev l).traceLog = st.traceLog := rfl

/-! ## Behaviour of subscription handles -/

theorem handleInvoke_active (st : St) (hid : Nat) (hr : HandleRec)
    (hget : st.handles[hid]? = some hr) (hact : hr.active = true) :
    handleInvoke st hid
      = ({ st with handles := st.handles.set hid ⟨hr.event, hr.listener, false⟩,
                   registry := (remove st.registry hr.event hr.listener).1 },
         (remove st.registry hr.event hr.listener).2) := by
  unfold handleInvoke
  rw [hget]
  simp [hact]

theorem handleInvoke_inactive (st : St) (hid : Nat) (hr : HandleRec)
    (hget : st.handles[hid]? = some hr) (hact : hr.active = false) :
    handleInvoke st hid = (st, false) := by
  unfold handleInvoke
  rw [hget]
  simp [hact]

theorem emit_of_no_listeners (env : Env) (fuel : Nat) (st : St) (e : Nat)
    (args : List Nat) (h : getListeners st.registry e = []) :
    emit env fuel st e args = (pushTrace st (.emitT [] e args), .ok) := by
  simp [emit, h]

theorem emitAsync_of_no_listeners (env : Env) (fuel : Nat) (st : St) (e : Nat)
    (args : List Nat) (h : getListeners st.registry e = []) :
    emitAsync env fuel st e args = (pushTrace st (.emitAsyncT [] e args), .ok) := by
  simp [emitAsync, h]

/-- C8: for an event with no registered listeners (never subscribed, or all
listeners removed), `has` answers `false`, and `emit`/`emitAsync` leave the
registry (indeed everything except the trace log) unchanged, invoke no
listener, and still call the trace hook exactly once with the emission tag
and the `{listeners, event, args}` payload (with the empty listener set). -/
theorem never_subscribed_noop (env : Env) (fuel : Nat) (st : St) (e : Nat)
    (args : List Nat) (h : getListeners st.registry e = []) :
    has st.registry e = false
    ∧ emit env fuel st e args
        = ({ st with traceLog := st.traceLog ++ [.emitT [] e args] }, .ok)
    ∧ emitAsync env fuel st e args
        = ({ st with traceLog := st.traceLog ++ [.emitAsyncT [] e args] }, .ok) := by
  refine ⟨by simp [has, h], ?_, ?_⟩
  · rw [emit_of_no_listeners env fuel st e args h]; rfl
  · rw [emitAsync_of_no_listeners env fuel st e args h]; rfl

theorem never_subscribed_noop_witness :
    getListeners St.empty.registry 9 = []
    ∧ (has St.empty.registry 9 = false
      ∧ emit ⟨fun _ => [], fun _ => none, false⟩ 1 St.empty 9 [4]
          = ({ St.empty with traceLog := St.empty.traceLog ++ [.emitT [] 9 [4]] }, .ok)
      ∧ emitAsync ⟨fun _ => [], fun _ => none, false⟩ 1 St.empty 9 [4]
          = ({ St.empty with traceLog := St.empty.traceLog ++ [.emitAsyncT [] 9 [4]] }, .ok)) :=
  ⟨by decide, never_subscribed_noop ⟨fun _ => [], fun _ => none, false⟩ 1 St.empty 9 [4] (by decide)⟩

/-- C2 counterexample: a host that already defines `emitAsync` (and none of
the five checked names) is NOT rejected — attachment succeeds and the
pre-existing `emitAsync` property (value tag 5) is overwritten by the
capability (value tag 104).  This refutes the claim that a host already
defining `emitAsync` fails with a collision error. -/
theorem emitAsync_not_collision_checked :
    eventful [("emitAsync", 5)]
      = Except.ok [("emitAsync", 104), ("on", 100), ("once", 101),
          ("off", 102), ("emit", 103), ("has", 105)] := by
  rfl

/-- C2 amended: attachment fails with the collision error iff one of the
five checked names `on`, `once`, `off`, `emit`, `has` is already present on
the host (and then the host is untouched); `emitAsync` is not among the
checked names, and a host already defining only `emitAsync` is accepted,
with its `emitAsync` property overwritten by the attached capability. -/
theorem eventful_collision_exact (host : Host) :
    (eventful host = Except.error "Method already exists."
      ↔ ∃ m ∈ methodNames, hostHas host m = true)
    ∧ (∀ v, eventful [("emitAsync", v)]
        = Except.ok [("emitAsync", 104), ("on", 100), ("once", 101),
            ("off", 102), ("emit", 103), ("has", 105)]) := by
  constructor
  · by_cases hc : methodNames.any fun m => hostHas host m
    · simp [eventful, hc]
      exact List.any_eq_true.mp hc
    · simp [eventful, hc]
      intro m hm
      exact Bool.eq_false_iff.mpr fun hh => hc (List.any_eq_true.mpr ⟨m, hm, hh⟩)
  · intro v
    rfl

/-- C5: a subscription handle is single-use.  While its `(event, listener)`
pair is registered and the handle is active, invoking it returns `true`,
removes exactly that listener from the event's set (other listeners of the
event and other events are untouched), and deactivates the handle; any
invocation of a handle whose record is inactive — in particular every later
invocation, even after the same listener was re-subscribed — returns
`false` and changes nothing. -/
theorem handle_single_use (st : St) (hid e : Nat) (f : Listener)
    (hget : st.handles[hid]? = some ⟨e, f, true⟩)
    (hmem : f ∈ getListeners st.registry e)
    (hnd : (getListeners st.registry e).Nodup) :
    (handleInvoke st hid).2 = true
    ∧ f ∉ getListeners (handleInvoke st hid).1.registry e
    ∧ (∀ g, ¬ g = f →
        (g ∈ getListeners (handleInvoke st hid).1.registry e
          ↔ g ∈ getListeners st.registry e))
    ∧ (∀ e', ¬ e' = e →
        getListeners (handleInvoke st hid).1.registry e'
          = getListeners st.registry e')
    ∧ (handleInvoke st hid).1.handles[hid]? = some ⟨e, f, false⟩
    ∧ (∀ st', st'.handles[hid]? = some ⟨e, f, false⟩ →
        handleInvoke st' hid = (st', false)) := by
  have hmain : handleInvoke st hid
      = ({ st with handles := st.handles.set hid ⟨e, f, false⟩,
                   registry := (remove st.registry e f).1 },
         (remove st.registry e f).2) :=
    handleInvoke_active st hid ⟨e, f, true⟩ hget rfl
  refine ⟨?_, ?_, ?_, ?_, ?_, ?_⟩
  · rw [hmain]
    simp [remove_snd, hmem]
  · rw [hmain]
    simp only
    rw [getListeners_remove, if_pos rfl]
    exact not_mem_deleteFromSet hnd
  · intro g hg
    rw [hmain]
    simp only
    rw [getListeners_remove, if_pos rfl]
    exact mem_deleteFromSet_ne hg
  · intro e' he
    rw [hmain]
    simp only
    rw [getListeners_remove, if_neg he]
  · rw [hmain]
    exact getElem?_set_of_some _ hget
  · intro st' h'
    exact handleInvoke_inactive st' hid ⟨e, f, false⟩ h' rfl

theorem handle_single_use_witness :
    ((onOp St.empty 2 (.plain 6)).1.handles[0]? = some ⟨2, .plain 6, true⟩
      ∧ Listener.plain 6 ∈ getListeners (onOp St.empty 2 (.plain 6)).1.registry 2
      ∧ (getListeners (onOp St.empty 2 (.plain 6)).1.registry 2).Nodup)
    ∧ ((handleInvoke (onOp St.empty 2 (.plain 6)).1 0).2 = true
      ∧ Listener.plain 6 ∉ getListeners (handleInvoke (onOp St.empty 2 (.plain 6)).1 0).1.registry 2
      ∧ (∀ g, ¬ g = Listener.plain 6 →
          (g ∈ getListeners (handleInvoke (onOp St.empty 2 (.plain 6)).1 0).1.registry 2
            ↔ g ∈ getListeners (onOp St.empty 2 (.plain 6)).1.registry 2))
      ∧ (∀ e', ¬ e' = 2 →
          getListeners (handleInvoke (onOp St.empty 2 (.plain 6)).1 0).1.registry e'
            = getListeners (onOp St.empty 2 (.plain 6)).1.registry e')
      ∧ (handleInvoke (onOp St.empty 2 (.plain 6)).1 0).1.handles[0]? = some ⟨2, .plain 6, false⟩
      ∧ (∀ st', st'.handles[0]? = some ⟨2, .plain 6, false⟩ →
          handleInvoke st' 0 = (st', false))) :=
  ⟨⟨by decide, by decide, by decide⟩,
    handle_single_use (onOp St.empty 2 (.plain 6)).1 0 2 (.plain 6)
      (by decide) (by decide) (by decide)⟩

/-- C9: after `once(e, f)`, calling `off(e, f)` with the original listener
`f` returns `false` and removes nothing — the registered entry is the
internal adapter closure, not `f` — while invoking the handle returned by
`once` does remove the pending adapter.  The hypotheses say `f` is not
independently registered under `e` and the (fresh) adapter value is not
already present. -/
theorem off_does_not_remove_once (st : St) (e : Nat) (f : Listener)
    (hf : f ∉ getListeners st.registry e)
    (ha : Listener.onceAdapter st.handles.length f ∉ getListeners st.registry e) :
    (off (once st e f).1 e f).2 = false
    ∧ (∀ e', getListeners (off (once st e f).1 e f).1.registry e'
        = getListeners (once st e f).1.registry e')
    ∧ Listener.onceAdapter st.handles.length f
        ∈ getListeners (off (once st e f).1 e f).1.registry e
    ∧ (handleInvoke (off (once st e f).1 e f).1 st.handles.length).2 = true
    ∧ Listener.onceAdapter st.handles.length f
        ∉ getListeners (handleInvoke (off (once st e f).1 e f).1 st.handles.length).1.registry e := by
  have hfa : ¬ f = Listener.onceAdapter st.handles.length f :=
    fun hc => onceAdapter_ne st.handles.length f hc.symm
  have h1 : getListeners (once st e f).1.registry e
      = getListeners st.registry e ++ [Listener.onceAdapter st.handles.length f] := by
    show getListeners (add _ e _) e = _
    rw [getListeners_add, if_pos rfl]
    simp only [pushTrace_registry]
    unfold addToSet
    rw [if_neg ha]
  have hfap : f ∉ getListeners (once st e f).1.registry e := by
    rw [h1]
    exact not_mem_append_single hf hfa
  have hoff : (off (once st e f).1 e f).1.registry
      = (remove (once st e f).1.registry e f).1 := rfl
  have hoffL : ∀ e', getListeners (off (once st e f).1 e f).1.registry e'
      = getListeners (once st e f).1.registry e' := by
    intro e'
    rw [hoff, getListeners_remove]
    by_cases he : e' = e
    · subst he
      rw [if_pos rfl, deleteFromSet_of_not_mem hfap]
    · rw [if_neg he]
  have hhandles : (off (once st e f).1 e f).1.handles
      = st.handles ++ [⟨e, Listener.onceAdapter st.handles.length f, true⟩] := rfl
  have hhget : (off (once st e f).1 e f).1.handles[st.handles.length]?
      = some ⟨e, Listener.onceAdapter st.handles.length f, true⟩ := by
    rw [hhandles]
    exact List.getElem?_concat_length _ _
  have hmema : Listener.onceAdapter st.handles.length f
      ∈ getListeners (off (once st e f).1 e f).1.registry e := by
    rw [hoffL, h1]
    simp
  have hmain := handleInvoke_active (off (once st e f).1 e f).1 st.handles.length
    ⟨e, Listener.onceAdapter st.handles.length f, true⟩ hhget rfl
  refine ⟨?_, hoffL, hmema, ?_, ?_⟩
  · show (remove (once st e f).1.registry e f).2 = false
    rw [remove_snd]
    simp [hfap]
  · rw [hmain]
    simp only
    rw [remove_snd]
    simp [hmema]
  · rw [hmain]
    simp only
    rw [getListeners_remove, if_pos rfl, hoffL, h1,
      deleteFromSet_append_self ha]
    exact ha

theorem off_does_not_remove_once_witness :
    (Listener.plain 4 ∉ getListeners St.empty.registry 1
      ∧ Listener.onceAdapter St.empty.handles.length (.plain 4)
          ∉ getListeners St.empty.registry 1)
    ∧ ((off (once St.empty 1 (.plain 4)).1 1 (.plain 4)).2 = false
      ∧ (∀ e', getListeners (off (once St.empty 1 (.plain 4)).1 1 (.plain 4)).1.registry e'
          = getListeners (once St.empty 1 (.plain 4)).1.registry e')
      ∧ Listener.onceAdapter St.empty.handles.length (.plain 4)
          ∈ getListeners (off (once St.empty 1 (.plain 4)).1 1 (.plain 4)).1.registry 1
      ∧ (handleInvoke (off (once St.empty 1 (.plain 4)).1 1 (.plain 4)).1 St.empty.handles.length).2 = true
      ∧ Listener.onceAdapter St.empty.handles.length (.plain 4)
          ∉ getListeners (handleInvoke (off (once St.empty 1 (.plain 4)).1 1 (.plain 4)).1 St.empty.handles.length).1.registry 1) :=
  ⟨⟨by decide, by decide⟩,
    off_does_not_remove_once St.empty 1 (.plain 4) (by decide) (by decide)⟩

/-- C6: registering the exact same listener reference twice under the same
event is a no-op on the registry (`add` is idempotent, hence double `on`
leaves the registry as after a single `on`), and a subsequent emission
invokes the listener exactly once; the same listener under a different
event is an independent entry, and two distinct closures (distinct
identities, identical bodies) both live in the set. -/
theorem subscribe_set_semantics :
    (∀ (r : Registry) (e : Nat) (l : Listener), add (add r e l) e l = add r e l)
    ∧ (∀ (st : St) (e : Nat) (l : Listener),
        (onOp (onOp st e l).1 e l).1.registry = (onOp st e l).1.registry)
    ∧ (∀ (r : Registry) (e e' : Nat) (l : Listener), ¬ e' = e →
        getListeners (add r e l) e' = getListeners r e')
    ∧ (∀ (r : Registry) (e : Nat) (l1 l2 : Listener),
        l1 ∈ getListeners (add (add r e l1) e l2) e
        ∧ l2 ∈ getListeners (add (add r e l1) e l2) e)
    ∧ (emit ⟨fun _ => [], fun _ => none, false⟩ 2
        (onOp (onOp St.empty 0 (.plain 0)).1 0 (.plain 0)).1 0 [7]).1.invLog
      = [⟨.plain 0, [7]⟩]
    ∧ getListeners (onOp (onOp St.empty 0 (.plain 0)).1 1 (.plain 0)).1.registry 0
        = [.plain 0]
    ∧ getListeners (onOp (onOp St.empty 0 (.plain 0)).1 1 (.plain 0)).1.registry 1
        = [.plain 0]
    ∧ getListeners (onOp (onOp St.empty 0 (.plain 0)).1 0 (.plain 1)).1.registry 0
        = [.plain 0, .plain 1] := by
  refine ⟨add_idem, ?_, ?_, ?_, by decide, by decide, by decide, by decide⟩
  · intro st e l
    show add (add _ e l) e l = add _ e l
    simp only [pushTrace_registry]
    exact add_idem _ e l
  · intro r e e' l he
    rw [getListeners_add, if_neg he]
  · intro r e l1 l2
    constructor
    · rw [getListeners_add, if_pos rfl]
      apply mem_addToSet_mono
      rw [getListeners_add, if_pos rfl]
      exact mem_addToSet_self _ _
    · rw [getListeners_add, if_pos rfl]
      exact mem_addToSet_self _ _

/-! ## Emission over pure (non-mutating) listeners

The general `emit`/`emitAsync` theorems below quantify over listeners
whose synchronous behaviour is either "do nothing" or "throw" — the
setting of the spec's scenarios.  (Listeners that mutate the registry
mid-emission fall under the design notes' declared-unspecified
behaviour.) -/

/-- The listener is a plain closure that either returns normally at once
or throws synchronously at once. -/
def PureSpec (env : Env) (l : Listener) : Prop :=
  ∃ id, l = .plain id ∧ (env.body id = [] ∨ ∃ k, env.body id = [.throwErr k])

/-- The error thrown by the listener's synchronous part, for such pure
listeners. -/
def syncErr (env : Env) : Listener → Option Nat
  | .plain id =>
    match env.body id with
    | [Stmt.throwErr k] => some k
    | _ => none
  | .onceAdapter _ _ => none

/-- How the listener's per-call promise settles inside `emitAsync`:
a synchronous throw and a deferred rejection both reject. -/
def settlementOf (env : Env) (l : Listener) : Option Nat :=
  match syncErr env l with
  | some k => some k
  | none => deferredOf env l

theorem invoke_pure (env : Env) (fuel : Nat) (st : St) (l : Listener)
    (args : List Nat) (h : PureSpec env l) :
    invokeListener env fuel st l args
      = (pushInv st l args,
         match syncErr env l with
         | none => Outcome.ok
         | some k => Outcome.err k) := by
  obtain ⟨id, rfl, hb⟩ := h
  rcases hb with hb | ⟨k, hb⟩ <;>
    simp [invokeListener, execStmts, syncErr, hb]

theorem emitAsyncLoop_pure (env : Env) (fuel : Nat) (e : Nat)
    (args : List Nat) :
    ∀ (ls : List Listener) (st : St), (∀ l ∈ ls, PureSpec env l) →
    emitAsyncLoop env fuel st e args ls
      = ({ st with
            invLog := st.invLog ++ ls.map fun l => ⟨l, args⟩,
            errLog := st.errLog ++ ls.filterMap fun l =>
              (syncErr env l).map fun k => ⟨k, e, l⟩ },
         some (ls.map (settlementOf env))) := by
  intro ls
  induction ls with
  | nil => intro st _; simp [emitAsyncLoop]
  | cons l rest ih =>
    intro st hp
    have hl := hp l (List.mem_cons_self l rest)
    have hrest := fun x hx => hp x (List.mem_cons_of_mem l hx)
    simp only [emitAsyncLoop]
    rw [invoke_pure env fuel st l args hl]
    cases hs : syncErr env l with
    | none =>
      simp only
      rw [ih (pushInv st l args) hrest]
      simp [pushInv, settlementOf, hs, List.filterMap_cons]
    | some k =>
      simp only
      rw [ih (pushErr (pushInv st l args) k e l) hrest]
      simp [pushInv, pushErr, settlementOf, hs, List.filterMap_cons]

/-- C1 counterexample: a listener that returns a deferred completion which
later rejects (with 9) is a listener failure — under `strict` the whole
`emitAsync` fails with that error — yet the error hook is never invoked
for it: the error log stays empty.  This refutes the claim that a deferred
rejection is reported to the error hook like a synchronous throw. -/
theorem emitAsync_rejection_unreported :
    (emitAsync ⟨fun _ => [], fun _ => some 9, true⟩ 3
        (onOp St.empty 0 (.plain 0)).1 0 []).1.errLog = []
    ∧ (emitAsync ⟨fun _ => [], fun _ => some 9, true⟩ 3
        (onOp St.empty 0 (.plain 0)).1 0 []).2 = .err 9 := by
  constructor <;> decide

/-- C1 amended: during `emitAsync`, each listener of the snapshot is
invoked; a listener that throws synchronously is reported to the error
hook with the `{event, listener}` context (the `{host, event, listener}`
context of the source, host being the fixed instance), while a listener
whose returned deferred completion rejects is NOT reported to the error
hook — its rejection only feeds the per-listener settlement, surfacing to
the caller solely through strict-mode failure (`Promise.all`), the first
rejection winning. -/
theorem emitAsync_error_reporting (env : Env) (fuel : Nat) (st : St)
    (e : Nat) (args : List Nat)
    (hpure : ∀ l ∈ getListeners st.registry e, PureSpec env l)
    (hne : ¬ getListeners st.registry e = []) :
    emitAsync env fuel st e args
      = ({ st with
            traceLog := st.traceLog
              ++ [.emitAsyncT (getListeners st.registry e) e args],
            invLog := st.invLog
              ++ (getListeners st.registry e).map fun l => ⟨l, args⟩,
            errLog := st.errLog
              ++ (getListeners st.registry e).filterMap fun l =>
                (syncErr env l).map fun k => ⟨k, e, l⟩ },
         if env.strict then
           match firstRejection
               ((getListeners st.registry e).map (settlementOf env)) with
           | some k => Outcome.err k
           | none => Outcome.ok
         else Outcome.ok) := by
  unfold emitAsync
  rw [if_neg (by simpa [List.isEmpty_iff] using hne)]
  rw [emitAsyncLoop_pure env fuel e args (getListeners st.registry e)
    (pushTrace st (.emitAsyncT (getListeners st.registry e) e args))
    hpure]
  cases hstrict : env.strict
  · simp [pushTrace]
  · cases hfr : firstRejection
        ((getListeners st.registry e).map (settlementOf env)) <;>
      simp [pushTrace, hfr]

theorem emitAsync_error_reporting_witness :
    ((∀ l ∈ getListeners
        (onOp (onOp St.empty 5 (.plain 0)).1 5 (.plain 2)).1.registry 5,
        PureSpec ⟨fun id => if id = 0 then [.throwErr 7] else [],
          fun id => if id = 2 then some 9 else none, false⟩ l)
      ∧ ¬ getListeners
          (onOp (onOp St.empty 5 (.plain 0)).1 5 (.plain 2)).1.registry 5 = [])
    ∧ emitAsync ⟨fun id => if id = 0 then [.throwErr 7] else [],
          fun id => if id = 2 then some 9 else none, false⟩ 3
        (onOp (onOp St.empty 5 (.plain 0)).1 5 (.plain 2)).1 5 [1]
      = ({ (onOp (onOp St.empty 5 (.plain 0)).1 5 (.plain 2)).1 with
            traceLog := (onOp (onOp St.empty 5 (.plain 0)).1 5 (.plain 2)).1.traceLog
              ++ [.emitAsyncT (getListeners
                  (onOp (onOp St.empty 5 (.plain 0)).1 5 (.plain 2)).1.registry 5) 5 [1]],
            invLog := (onOp (onOp St.empty 5 (.plain 0)).1 5 (.plain 2)).1.invLog
              ++ (getListeners
                  (onOp (onOp St.empty 5 (.plain 0)).1 5 (.plain 2)).1.registry 5).map
                    fun l => ⟨l, [1]⟩,
            errLog := (onOp (onOp St.empty 5 (.plain 0)).1 5 (.plain 2)).1.errLog
              ++ (getListeners
                  (onOp (onOp St.empty 5 (.plain 0)).1 5 (.plain 2)).1.registry 5).filterMap
                    fun l => (syncErr ⟨fun id => if id = 0 then [.throwErr 7] else [],
                      fun id => if id = 2 then some 9 else none, false⟩ l).map
                        fun k => ⟨k, 5, l⟩ },
         if (false : Bool) then
           match firstRejection ((getListeners
               (onOp (onOp St.empty 5 (.plain 0)).1 5 (.plain 2)).1.registry 5).map
                 (settlementOf ⟨fun id => if id = 0 then [.throwErr 7] else [],
                   fun id => if id = 2 then some 9 else none, false⟩)) with
           | some k => Outcome.err k
           | none => Outcome.ok
         else Outcome.ok) :=
  ⟨⟨by
      intro l hl
      rw [(by decide : getListeners
        (onOp (onOp St.empty 5 (.plain 0)).1 5 (.plain 2)).1.registry 5
          = [Listener.plain 0, Listener.plain 2])] at hl
      simp at hl
      rcases hl with rfl | rfl
      · exact ⟨0, rfl, Or.inr ⟨7, rfl⟩⟩
      · exact ⟨2, rfl, Or.inl rfl⟩,
    by decide⟩,
    emitAsync_error_reporting
      ⟨fun id => if id = 0 then [.throwErr 7] else [],
        fun id => if id = 2 then some 9 else none, false⟩ 3
      (onOp (onOp St.empty 5 (.plain 0)).1 5 (.plain 2)).1 5 [1]
      (by
        intro l hl
        rw [(by decide : getListeners
          (onOp (onOp St.empty 5 (.plain 0)).1 5 (.plain 2)).1.registry 5
            = [Listener.plain 0, Listener.plain 2])] at hl
        simp at hl
        rcases hl with rfl | rfl
        · exact ⟨0, rfl, Or.inr ⟨7, rfl⟩⟩
        · exact ⟨2, rfl, Or.inl rfl⟩)
      (by decide)⟩

/-- The declarative description of one synchronous emission pass over pure
listeners: which listeners run (in order, with the argument list), which
error-hook calls happen, and the outcome.  Under `strict` the first
thrower ends the pass. -/
def emitSpec (env : Env) (e : Nat) (args : List Nat) :
    List Listener → List InvEntry × List ErrEntry × Outcome
  | [] => ([], [], .ok)
  | l :: rest =>
    match syncErr env l with
    | none =>
      let r := emitSpec env e args rest
      (⟨l, args⟩ :: r.1, r.2.1, r.2.2)
    | some k =>
      if env.strict then ([⟨l, args⟩], [⟨k, e, l⟩], .err k)
      else
        let r := emitSpec env e args rest
        (⟨l, args⟩ :: r.1, ⟨k, e, l⟩ :: r.2.1, r.2.2)

theorem emitLoop_pure (env : Env) (fuel : Nat) (e : Nat) (args : List Nat) :
    ∀ (ls : List Listener) (st : St), (∀ l ∈ ls, PureSpec env l) →
    (∀ l ∈ ls, l ∈ getListeners st.registry e) →
    emitLoop env fuel st e args ls
      = ({ st with
            invLog := st.invLog ++ (emitSpec env e args ls).1,
            errLog := st.errLog ++ (emitSpec env e args ls).2.1 },
         (emitSpec env e args ls).2.2) := by
  intro ls
  induction ls with
  | nil => intro st _ _; simp [emitLoop, emitSpec]
  | cons l rest ih =>
    intro st hp hm
    have hl := hp l (List.mem_cons_self l rest)
    have hrest := fun x hx => hp x (List.mem_cons_of_mem l hx)
    have hmem := hm l (List.mem_cons_self l rest)
    have hmrest := fun x hx => hm x (List.mem_cons_of_mem l hx)
    simp only [emitLoop]
    rw [if_pos hmem, invoke_pure env fuel st l args hl]
    cases hs : syncErr env l with
    | none =>
      simp only
      rw [ih (pushInv st l args) hrest (by simpa using hmrest)]
      simp [pushInv, emitSpec, hs]
    | some k =>
      simp only
      cases hstrict : env.strict with
      | true =>
        simp [pushInv, pushErr, emitSpec, hs, hstrict]
      | false =>
        rw [if_neg (by simp [hstrict])]
        rw [ih (pushErr (pushInv st l args) k e l) hrest (by simpa using hmrest)]
        simp [pushInv, pushErr, emitSpec, hs, hstrict]

theorem emitSpec_nonstrict (env : Env) (e : Nat) (args : List Nat)
    (hstrict : env.strict = false) :
    ∀ ls : List Listener,
    (emitSpec env e args ls).1 = ls.map (fun l => (⟨l, args⟩ : InvEntry))
    ∧ (emitSpec env e args ls).2.1
        = ls.filterMap (fun l => (syncErr env l).map fun k => ⟨k, e, l⟩)
    ∧ (emitSpec env e args ls).2.2 = .ok := by
  intro ls
  induction ls with
  | nil => simp [emitSpec]
  | cons l rest ih =>
    cases hs : syncErr env l with
    | none => simp [emitSpec, hs, ih, List.filterMap_cons]
    | some k => simp [emitSpec, hs, hstrict, ih, List.filterMap_cons]

theorem emitSpec_strict_abort (env : Env) (e : Nat) (args : List Nat)
    (hstrict : env.strict = true) :
    ∀ (pre : List Listener) (thr : Listener) (post : List Listener) (k : Nat),
    (∀ x ∈ pre, syncErr env x = none) → syncErr env thr = some k →
    emitSpec env e args (pre ++ thr :: post)
      = ((pre ++ [thr]).map (fun l => (⟨l, args⟩ : InvEntry)),
          [⟨k, e, thr⟩], .err k) := by
  intro pre
  induction pre with
  | nil =>
    intro thr post k _ hthr
    simp [emitSpec, hthr, hstrict]
  | cons x pre ih =>
    intro thr post k hpre hthr
    have hx := hpre x (List.mem_cons_self x pre)
    have hpre2 := fun y hy => hpre y (List.mem_cons_of_mem x hy)
    have ihr := ih thr post k hpre2 hthr
    simp only [List.cons_append, emitSpec, hx, List.append_eq]
    rw [ihr]
    simp

/-- C3: on a non-empty listener set of pure listeners, `emit` runs the
listeners synchronously in insertion order, passing the same argument list
to each; each thrown error is caught and reported to the error hook with
the error and the `{event, listener}` context; with `strict` off every
listener still runs and `emit` returns normally; with `strict` on, the
first thrower's error is re-raised right after the error hook runs and no
later listener of the emission runs. -/
theorem emit_order_and_isolation (env : Env) (fuel : Nat) (st : St)
    (e : Nat) (args : List Nat)
    (hpure : ∀ l ∈ getListeners st.registry e, PureSpec env l)
    (hne : ¬ getListeners st.registry e = []) :
    emit env fuel st e args
      = ({ st with
            traceLog := st.traceLog
              ++ [.emitT (getListeners st.registry e) e args],
            invLog := st.invLog
              ++ (emitSpec env e args (getListeners st.registry e)).1,
            errLog := st.errLog
              ++ (emitSpec env e args (getListeners st.registry e)).2.1 },
         (emitSpec env e args (getListeners st.registry e)).2.2)
    ∧ (env.strict = false →
        (emitSpec env e args (getListeners st.registry e)).1
            = (getListeners st.registry e).map (fun l => (⟨l, args⟩ : InvEntry))
        ∧ (emitSpec env e args (getListeners st.registry e)).2.1
            = (getListeners st.registry e).filterMap (fun l =>
                (syncErr env l).map fun k => ⟨k, e, l⟩)
        ∧ (emitSpec env e args (getListeners st.registry e)).2.2 = .ok)
    ∧ (∀ pre thr post k, env.strict = true →
        getListeners st.registry e = pre ++ thr :: post →
        (∀ x ∈ pre, syncErr env x = none) →
        syncErr env thr = some k →
        (emitSpec env e args (getListeners st.registry e)).1
            = (pre ++ [thr]).map (fun l => (⟨l, args⟩ : InvEntry))
        ∧ (emitSpec env e args (getListeners st.registry e)).2.1 = [⟨k, e, thr⟩]
        ∧ (emitSpec env e args (getListeners st.registry e)).2.2 = .err k) := by
  refine ⟨?_, ?_, ?_⟩
  · unfold emit
    rw [if_neg (by simpa [List.isEmpty_iff] using hne)]
    rw [emitLoop_pure env fuel e args (getListeners st.registry e)
      (pushTrace st (.emitT (getListeners st.registry e) e args))
      hpure (by simp)]
    simp [pushTrace]
  · intro hstrict
    exact emitSpec_nonstrict env e args hstrict (getListeners st.registry e)
  · intro pre thr post k hstrict hsplit hpre hthr
    rw [hsplit]
    rw [emitSpec_strict_abort env e args hstrict pre thr post k hpre hthr]
    exact ⟨rfl, rfl, rfl⟩

theorem emit_order_and_isolation_witness :
    ((∀ l ∈ getListeners (onOp (onOp (onOp St.empty 5 (.plain 1)).1 5 (.plain 0)).1 5 (.plain 2)).1.registry 5, PureSpec (⟨fun id => if id = 0 then [.throwErr 7] else [], fun _ => none, false⟩ : Env) l)
      ∧ ¬ getListeners (onOp (onOp (onOp St.empty 5 (.plain 1)).1 5 (.plain 0)).1 5 (.plain 2)).1.registry 5 = [])
    ∧ (emit (⟨fun id => if id = 0 then [.throwErr 7] else [], fun _ => none, false⟩ : Env) 4 (onOp (onOp (onOp St.empty 5 (.plain 1)).1 5 (.plain 0)).1 5 (.plain 2)).1 5 [3]
        = ({ (onOp (onOp (onOp St.empty 5 (.plain 1)).1 5 (.plain 0)).1 5 (.plain 2)).1 with
              traceLog := (onOp (onOp (onOp St.empty 5 (.plain 1)).1 5 (.plain 0)).1 5 (.plain 2)).1.traceLog
                ++ [.emitT (getListeners (onOp (onOp (onOp St.empty 5 (.plain 1)).1 5 (.plain 0)).1 5 (.plain 2)).1.registry 5) 5 [3]],
              invLog := (onOp (onOp (onOp St.empty 5 (.plain 1)).1 5 (.plain 0)).1 5 (.plain 2)).1.invLog
                ++ (emitSpec (⟨fun id => if id = 0 then [.throwErr 7] else [], fun _ => none, false⟩ : Env) 5 [3] (getListeners (onOp (onOp (onOp St.empty 5 (.plain 1)).1 5 (.plain 0)).1 5 (.plain 2)).1.registry 5)).1,
              errLog := (onOp (onOp (onOp St.empty 5 (.plain 1)).1 5 (.plain 0)).1 5 (.plain 2)).1.errLog
                ++ (emitSpec (⟨fun id => if id = 0 then [.throwErr 7] else [], fun _ => none, false⟩ : Env) 5 [3] (getListeners (onOp (onOp (onOp St.empty 5 (.plain 1)).1 5 (.plain 0)).1 5 (.plain 2)).1.registry 5)).2.1 },
           (emitSpec (⟨fun id => if id = 0 then [.throwErr 7] else [], fun _ => none, false⟩ : Env) 5 [3] (getListeners (onOp (onOp (onOp St.empty 5 (.plain 1)).1 5 (.plain 0)).1 5 (.plain 2)).1.registry 5)).2.2)
      ∧ ((⟨fun id => if id = 0 then [.throwErr 7] else [], fun _ => none, false⟩ : Env).strict = false →
          (emitSpec (⟨fun id => if id = 0 then [.throwErr 7] else [], fun _ => none, false⟩ : Env) 5 [3] (getListeners (onOp (onOp (onOp St.empty 5 (.plain 1)).1 5 (.plain 0)).1 5 (.plain 2)).1.registry 5)).1
              = (getListeners (onOp (onOp (onOp St.empty 5 (.plain 1)).1 5 (.plain 0)).1 5 (.plain 2)).1.registry 5).map (fun l => (⟨l, [3]⟩ : InvEntry))
          ∧ (emitSpec (⟨fun id => if id = 0 then [.throwErr 7] else [], fun _ => none, false⟩ : Env) 5 [3] (getListeners (onOp (onOp (onOp St.empty 5 (.plain 1)).1 5 (.plain 0)).1 5 (.plain 2)).1.registry 5)).2.1
              = (getListeners (onOp (onOp (onOp St.empty 5 (.plain 1)).1 5 (.plain 0)).1 5 (.plain 2)).1.registry 5).filterMap (fun l =>
                  (syncErr (⟨fun id => if id = 0 then [.throwErr 7] else [], fun _ => none, false⟩ : Env) l).map fun k => ⟨k, 5, l⟩)
          ∧ (emitSpec (⟨fun id => if id = 0 then [.throwErr 7] else [], fun _ => none, false⟩ : Env) 5 [3] (getListeners (onOp (onOp (onOp St.empty 5 (.plain 1)).1 5 (.plain 0)).1 5 (.plain 2)).1.registry 5)).2.2 = .ok)
      ∧ (∀ pre thr post k, (⟨fun id => if id = 0 then [.throwErr 7] else [], fun _ => none, false⟩ : Env).strict = true →
          getListeners (onOp (onOp (onOp St.empty 5 (.plain 1)).1 5 (.plain 0)).1 5 (.plain 2)).1.registry 5 = pre ++ thr :: post →
          (∀ x ∈ pre, syncErr (⟨fun id => if id = 0 then [.throwErr 7] else [], fun _ => none, false⟩ : Env) x = none) →
          syncErr (⟨fun id => if id = 0 then [.throwErr 7] else [], fun _ => none, false⟩ : Env) thr = some k →
          (emitSpec (⟨fun id => if id = 0 then [.throwErr 7] else [], fun _ => none, false⟩ : Env) 5 [3] (getListeners (onOp (onOp (onOp St.empty 5 (.plain 1)).1 5 (.plain 0)).1 5 (.plain 2)).1.registry 5)).1
              = (pre ++ [thr]).map (fun l => (⟨l, [3]⟩ : InvEntry))
          ∧ (emitSpec (⟨fun id => if id = 0 then [.throwErr 7] else [], fun _ => none, false⟩ : Env) 5 [3] (getListeners (onOp (onOp (onOp St.empty 5 (.plain 1)).1 5 (.plain 0)).1 5 (.plain 2)).1.registry 5)).2.1 = [⟨k, 5, thr⟩]
          ∧ (emitSpec (⟨fun id => if id = 0 then [.throwErr 7] else [], fun _ => none, false⟩ : Env) 5 [3] (getListeners (onOp (onOp (onOp St.empty 5 (.plain 1)).1 5 (.plain 0)).1 5 (.plain 2)).1.registry 5)).2.2 = .err k)) := by
  have hp : ∀ l ∈ getListeners (onOp (onOp (onOp St.empty 5 (.plain 1)).1 5 (.plain 0)).1 5 (.plain 2)).1.registry 5, PureSpec (⟨fun id => if id = 0 then [.throwErr 7] else [], fun _ => none, false⟩ : Env) l := by
    intro l hl
    rw [(by decide : getListeners (onOp (onOp (onOp St.empty 5 (.plain 1)).1 5 (.plain 0)).1 5 (.plain 2)).1.registry 5
      = [Listener.plain 1, Listener.plain 0, Listener.plain 2])] at hl
    simp at hl
    rcases hl with rfl | rfl | rfl
    · exact ⟨1, rfl, Or.inl rfl⟩
    · exact ⟨0, rfl, Or.inr ⟨7, rfl⟩⟩
    · exact ⟨2, rfl, Or.inl rfl⟩
  have hne : ¬ getListeners (onOp (onOp (onOp St.empty 5 (.plain 1)).1 5 (.plain 0)).1 5 (.plain 2)).1.registry 5 = [] := by decide
  exact ⟨⟨hp, hne⟩, emit_order_and_isolation (⟨fun id => if id = 0 then [.throwErr 7] else [], fun _ => none, false⟩ : Env) 4 (onOp (onOp (onOp St.empty 5 (.plain 1)).1 5 (.plain 0)).1 5 (.plain 2)).1 5 [3] hp hne⟩

/-! ## Firing a `once` registration -/

/-- One `emit` step on a state whose only registration is a fresh `once`
adapter (handle 0): the trace fires, the adapter is invoked, it first
deactivates its handle — emptying the registry — and only then invokes the
wrapped listener `f` on the already-empty registry; a thrown error is then
reported to the error hook (with the adapter as the listener context) and
re-raised under `strict`. -/
theorem emit_once_fire (env : Env) (fl : Nat) (e : Nat) (args : List Nat)
    (f : Listener) (iv : List InvEntry) (el : List ErrEntry)
    (tl : List TraceEntry) :
    emit env (fl + 1)
        ⟨[(e, [.onceAdapter 0 f])], [⟨e, .onceAdapter 0 f, true⟩], iv, el, tl⟩
        e args
      = (match (invokeListener env fl
            ⟨[], [⟨e, .onceAdapter 0 f, false⟩], iv ++ [⟨.onceAdapter 0 f, args⟩],
              el, tl ++ [.emitT [.onceAdapter 0 f] e args]⟩ f args) with
        | (st3, .ok) => (st3, .ok)
        | (st3, .err er) =>
          (pushErr st3 er e (.onceAdapter 0 f),
            if env.strict then .err er else .ok)
        | (st3, .outOfFuel) => (st3, .outOfFuel)) := by
  have hls : getListeners [(e, [Listener.onceAdapter 0 f])] e
      = [.onceAdapter 0 f] := by
    simp [getListeners, lookupEvent]
  have hrem : remove [(e, [Listener.onceAdapter 0 f])] e (.onceAdapter 0 f)
      = ([], true) := by
    simp [remove, lookupEvent, deleteFromSet, removeEntry]
  simp only [emit]
  rw [show getListeners
      (⟨[(e, [.onceAdapter 0 f])], [⟨e, .onceAdapter 0 f, true⟩], iv, el, tl⟩ : St).registry e
    = [.onceAdapter 0 f] from hls]
  simp only [List.isEmpty_cons, Bool.false_eq_true, if_false, emitLoop]
  rw [if_pos (by rw [pushTrace_registry]; rw [hls]; exact List.mem_singleton.mpr rfl)]
  simp only [invokeListener]
  have hh : handleInvoke
      (pushInv (pushTrace
        ⟨[(e, [.onceAdapter 0 f])], [⟨e, .onceAdapter 0 f, true⟩], iv, el, tl⟩
        (.emitT [.onceAdapter 0 f] e args)) (.onceAdapter 0 f) args) 0
      = (⟨[], [⟨e, .onceAdapter 0 f, false⟩], iv ++ [⟨.onceAdapter 0 f, args⟩],
          el, tl ++ [.emitT [.onceAdapter 0 f] e args]⟩, true) := by
    unfold handleInvoke
    simp [pushTrace, pushInv, hrem]
  rw [hh]
  cases hrr : invokeListener env fl
      ⟨[], [⟨e, .onceAdapter 0 f, false⟩], iv ++ [⟨.onceAdapter 0 f, args⟩],
        el, tl ++ [.emitT [.onceAdapter 0 f] e args]⟩ f args with
  | mk st3 out =>
    cases out with
    | ok => simp
    | err er =>
      cases hstrict : env.strict <;> simp [emitLoop, hstrict]
    | outOfFuel => simp

/-- C10: when the listener wrapped by `once` throws on its first invocation
during `emit`, the registration has already been removed before the error
is raised and the removal is not rolled back: the final state has an empty
registry and an inactive handle, the error hook has observed the failure
(context listener being the adapter entry), `emit` re-throws exactly under
`strict`, and any subsequent emission of the event invokes no listener at
all. -/
theorem once_thrower_removed_before_raise (env : Env) (e k fid : Nat)
    (args : List Nat) (fl : Nat)
    (hbody : env.body fid = [.throwErr k]) :
    emit env (fl + 1) (once St.empty e (.plain fid)).1 e args
      = ({ registry := [],
           handles := [⟨e, .onceAdapter 0 (.plain fid), false⟩],
           invLog := [⟨.onceAdapter 0 (.plain fid), args⟩, ⟨.plain fid, args⟩],
           errLog := [⟨k, e, .onceAdapter 0 (.plain fid)⟩],
           traceLog := [.onT e (.onceAdapter 0 (.plain fid)),
             .emitT [.onceAdapter 0 (.plain fid)] e args] },
         if env.strict then .err k else .ok)
    ∧ (∀ (fuel2 : Nat) (args2 : List Nat),
        (emit env fuel2
            (emit env (fl + 1) (once St.empty e (.plain fid)).1 e args).1
            e args2).1.invLog
          = (emit env (fl + 1) (once St.empty e (.plain fid)).1 e args).1.invLog) := by
  have hsync : syncErr env (.plain fid) = some k := by
    simp [syncErr, hbody]
  have h1 : (once St.empty e (.plain fid)).1
      = ⟨[(e, [.onceAdapter 0 (.plain fid)])],
          [⟨e, .onceAdapter 0 (.plain fid), true⟩], [], [],
          [.onT e (.onceAdapter 0 (.plain fid))]⟩ := rfl
  have hmain : emit env (fl + 1) (once St.empty e (.plain fid)).1 e args
      = ({ registry := [],
           handles := [⟨e, .onceAdapter 0 (.plain fid), false⟩],
           invLog := [⟨.onceAdapter 0 (.plain fid), args⟩, ⟨.plain fid, args⟩],
           errLog := [⟨k, e, .onceAdapter 0 (.plain fid)⟩],
           traceLog := [.onT e (.onceAdapter 0 (.plain fid)),
             .emitT [.onceAdapter 0 (.plain fid)] e args] },
         if env.strict then .err k else .ok) := by
    rw [h1, emit_once_fire env fl e args (.plain fid) [] []
      [.onT e (.onceAdapter 0 (.plain fid))]]
    rw [invoke_pure env fl _ (.plain fid) args ⟨fid, rfl, Or.inr ⟨k, hbody⟩⟩]
    rw [hsync]
    simp [pushInv, pushErr]
  refine ⟨hmain, ?_⟩
  intro fuel2 args2
  rw [hmain]
  rw [emit_of_no_listeners env fuel2 _ e args2 (by
    cases hstrict : env.strict <;> simp [hstrict, getListeners, lookupEvent])]
  cases hstrict : env.strict <;> simp [hstrict, pushTrace]

theorem once_thrower_removed_before_raise_witness :
    (⟨fun id => if id = 3 then [.throwErr 7] else [], fun _ => none, true⟩ : Env).body 3
        = [.throwErr 7]
    ∧ (emit ⟨fun id => if id = 3 then [.throwErr 7] else [], fun _ => none, true⟩ 2
          (once St.empty 4 (.plain 3)).1 4 [8]
        = ({ registry := [],
             handles := [⟨4, .onceAdapter 0 (.plain 3), false⟩],
             invLog := [⟨.onceAdapter 0 (.plain 3), [8]⟩, ⟨.plain 3, [8]⟩],
             errLog := [⟨7, 4, .onceAdapter 0 (.plain 3)⟩],
             traceLog := [.onT 4 (.onceAdapter 0 (.plain 3)),
               .emitT [.onceAdapter 0 (.plain 3)] 4 [8]] },
           if (⟨fun id => if id = 3 then [.throwErr 7] else [], fun _ => none, true⟩ : Env).strict
           then .err 7 else .ok)
      ∧ (∀ (fuel2 : Nat) (args2 : List Nat),
          (emit ⟨fun id => if id = 3 then [.throwErr 7] else [], fun _ => none, true⟩ fuel2
              (emit ⟨fun id => if id = 3 then [.throwErr 7] else [], fun _ => none, true⟩ 2
                (once St.empty 4 (.plain 3)).1 4 [8]).1
              4 args2).1.invLog
            = (emit ⟨fun id => if id = 3 then [.throwErr 7] else [], fun _ => none, true⟩ 2
                (once St.empty 4 (.plain 3)).1 4 [8]).1.invLog)) :=
  ⟨by decide,
    once_thrower_removed_before_raise
      ⟨fun id => if id = 3 then [.throwErr 7] else [], fun _ => none, true⟩
      4 7 3 [8] 1 (by decide)⟩

/-! ## `once` fires at most once -/

/-- The listener bodies of the environment only throw or emit (no direct
registry manipulation): the setting of the `once` claims, where the only
way a listener is reached is through the registry. -/
def SimpleBodies (env : Env) : Prop :=
  ∀ id s, s ∈ env.body id →
    (∃ k, s = Stmt.throwErr k) ∨ (∃ e2 as, s = Stmt.emitStmt e2 as)

/-- How many times listener `f` has been invoked according to the log. -/
def countInv (f : Listener) (log : List InvEntry) : Nat :=
  (log.filter fun i => i.listener = f).length

/-- A top-level step available to a client holding only the emitter and
the `once` handle: emit any event (with any fuel), or call a handle. -/
inductive EmitOp where
  | emitE (fuel : Nat) (e : Nat) (args : List Nat)
  | handleE (h : Nat)

def runEmitOp (env : Env) (st : St) : EmitOp → St
  | .emitE fuel e args => (emit env fuel st e args).1
  | .handleE h => (handleInvoke st h).1

def runEmitOps (env : Env) : St → List EmitOp → St
  | st, [] => st
  | st, op :: ops => runEmitOps env (runEmitOp env st op) ops

theorem countInv_append (f : Listener) (xs ys : List InvEntry) :
    countInv f (xs ++ ys) = countInv f xs + countInv f ys := by
  simp [countInv]

theorem execStmts_inert (env : Env) :
    ∀ (ss : List Stmt),
    (∀ s ∈ ss, (∃ k, s = Stmt.throwErr k) ∨ (∃ e2 as, s = Stmt.emitStmt e2 as)) →
    ∀ (fuel : Nat) (st : St) (args : List Nat), st.registry = [] →
    (execStmts env fuel st args ss).1.registry = []
    ∧ (execStmts env fuel st args ss).1.handles = st.handles
    ∧ (execStmts env fuel st args ss).1.invLog = st.invLog
    ∧ (execStmts env fuel st args ss).1.errLog = st.errLog := by
  intro ss
  induction ss with
  | nil =>
    intro _ fuel st args hreg
    simp [execStmts, hreg]
  | cons s rest ih =>
    intro hshape fuel st args hreg
    have hrest := fun x hx => hshape x (List.mem_cons_of_mem s hx)
    rcases hshape s (List.mem_cons_self s rest) with ⟨k, rfl⟩ | ⟨e2, as, rfl⟩
    · simp [execStmts, hreg]
    · cases fuel with
      | zero => simp [execStmts, hreg]
      | succ fl =>
        have hemit := emit_of_no_listeners env fl st e2 as
          (by rw [hreg]; rfl)
        have ihr := ih hrest (fl + 1)
          (pushTrace st (.emitT [] e2 as)) args (by simp [hreg])
        simp only [execStmts, hemit]
        simpa using ihr

theorem invokeListener_inert (env : Env) (fid : Nat)
    (hb : ∀ s ∈ env.body fid,
      (∃ k, s = Stmt.throwErr k) ∨ (∃ e2 as, s = Stmt.emitStmt e2 as))
    (fuel : Nat) (st : St) (args : List Nat) (hreg : st.registry = []) :
    (invokeListener env fuel st (.plain fid) args).1.registry = []
    ∧ (invokeListener env fuel st (.plain fid) args).1.handles = st.handles
    ∧ (invokeListener env fuel st (.plain fid) args).1.invLog
        = st.invLog ++ [⟨.plain fid, args⟩]
    ∧ (invokeListener env fuel st (.plain fid) args).1.errLog = st.errLog := by
  have h := execStmts_inert env (env.body fid) hb fuel
    (pushInv st (.plain fid) args) args (by simp [hreg])
  simp only [invokeListener]
  simpa [pushInv] using h

theorem handleInvoke_empty_registry (st : St) (h : Nat)
    (hreg : st.registry = []) :
    (handleInvoke st h).1.registry = []
    ∧ (handleInvoke st h).1.invLog = st.invLog := by
  unfold handleInvoke
  cases hg : st.handles[h]? with
  | none => simp [hreg]
  | some hr =>
    cases ha : hr.active with
    | false => simp [ha, hreg]
    | true => simp [ha, hreg, remove, lookupEvent]

theorem runEmitOps_empty_registry (env : Env) :
    ∀ (ops : List EmitOp) (st : St), st.registry = [] →
    (runEmitOps env st ops).registry = []
    ∧ (runEmitOps env st ops).invLog = st.invLog := by
  intro ops
  induction ops with
  | nil => intro st hreg; exact ⟨hreg, rfl⟩
  | cons op ops ih =>
    intro st hreg
    cases op with
    | emitE fuel e args =>
      have hemit := emit_of_no_listeners env fuel st e args (by rw [hreg]; rfl)
      have := ih (emit env fuel st e args).1 (by rw [hemit]; simpa using hreg)
      refine ⟨this.1, ?_⟩
      rw [show runEmitOps env st (EmitOp.emitE fuel e args :: ops)
        = runEmitOps env (emit env fuel st e args).1 ops from rfl]
      rw [this.2, hemit]
      rfl
    | handleE h =>
      have hh := handleInvoke_empty_registry st h hreg
      have := ih (handleInvoke st h).1 hh.1
      exact ⟨this.1, by
        rw [show runEmitOps env st (EmitOp.handleE h :: ops)
          = runEmitOps env (handleInvoke st h).1 ops from rfl, this.2, hh.2]⟩

/-- The reachable shapes of the state after `once(e0, plain fid)` on a
fresh instance, under any interleaving of emissions and handle calls:
either the adapter is still pending (handle 0 active, one registration,
`fid` never invoked), or the shot has been spent (empty registry, `fid`
invoked at most once). -/
def OncePhase (e0 fid : Nat) (st : St) : Prop :=
  (st.registry = [(e0, [.onceAdapter 0 (.plain fid)])]
    ∧ st.handles = [⟨e0, .onceAdapter 0 (.plain fid), true⟩]
    ∧ countInv (.plain fid) st.invLog = 0)
  ∨ (st.registry = [] ∧ countInv (.plain fid) st.invLog ≤ 1)

theorem oncePhase_emit (env : Env) (hs : SimpleBodies env) (e0 fid : Nat)
    (fuel e : Nat) (args : List Nat) (st : St) (hph : OncePhase e0 fid st) :
    OncePhase e0 fid (emit env fuel st e args).1 := by
  rcases hph with ⟨hreg, hhan, hcnt⟩ | ⟨hreg, hcnt⟩
  · by_cases he : e0 = e
    · subst he
      cases fuel with
      | zero =>
        obtain ⟨reg, han, iv, el, tl⟩ := st
        simp only at hreg hhan hcnt
        subst hreg; subst hhan
        have : (emit env 0
            ⟨[(e0, [.onceAdapter 0 (.plain fid)])],
              [⟨e0, .onceAdapter 0 (.plain fid), true⟩], iv, el, tl⟩ e0 args)
          = ((pushInv (pushTrace
              ⟨[(e0, [.onceAdapter 0 (.plain fid)])],
                [⟨e0, .onceAdapter 0 (.plain fid), true⟩], iv, el, tl⟩
              (.emitT [.onceAdapter 0 (.plain fid)] e0 args))
              (.onceAdapter 0 (.plain fid)) args), .outOfFuel) := by
          simp [emit, getListeners, lookupEvent, emitLoop, invokeListener,
            pushTrace, pushInv]
        rw [this]
        left
        refine ⟨rfl, rfl, ?_⟩
        show countInv (.plain fid)
          (iv ++ [⟨.onceAdapter 0 (.plain fid), args⟩]) = 0
        rw [countInv_append, hcnt]
        simp [countInv]
      | succ fl =>
        obtain ⟨reg, han, iv, el, tl⟩ := st
        simp only at hreg hhan hcnt
        subst hreg; subst hhan
        rw [emit_once_fire env fl e0 args (.plain fid) iv el tl]
        have hinert := invokeListener_inert env fid
          (fun s hsm => hs fid s hsm) fl
          ⟨[], [⟨e0, .onceAdapter 0 (.plain fid), false⟩],
            iv ++ [⟨.onceAdapter 0 (.plain fid), args⟩], el,
            tl ++ [.emitT [.onceAdapter 0 (.plain fid)] e0 args]⟩ args rfl
        right
        cases hrr : invokeListener env fl
            ⟨[], [⟨e0, .onceAdapter 0 (.plain fid), false⟩],
              iv ++ [⟨.onceAdapter 0 (.plain fid), args⟩], el,
              tl ++ [.emitT [.onceAdapter 0 (.plain fid)] e0 args]⟩
            (.plain fid) args with
        | mk st3 out =>
          rw [hrr] at hinert
          simp only at hinert
          have hcount : countInv (.plain fid) st3.invLog ≤ 1 := by
            have h1 : countInv (Listener.plain fid)
                [⟨.onceAdapter 0 (.plain fid), args⟩] = 0 := by
              simp [countInv]
            have h2 : countInv (Listener.plain fid)
                [(⟨.plain fid, args⟩ : InvEntry)] = 1 := by
              simp [countInv]
            rw [hinert.2.2.1]
            show countInv (.plain fid)
              ((iv ++ [⟨.onceAdapter 0 (.plain fid), args⟩])
                ++ [⟨.plain fid, args⟩]) ≤ 1
            rw [countInv_append, countInv_append, hcnt, h1, h2]
          cases out with
          | ok => exact ⟨hinert.1, hcount⟩
          | err er => exact ⟨by simp [hinert.1], by simpa using hcount⟩
          | outOfFuel => exact ⟨hinert.1, hcount⟩
    · have hget : getListeners st.registry e = [] := by
        rw [hreg]
        simp [getListeners, lookupEvent, he]
      rw [emit_of_no_listeners env fuel st e args hget]
      left
      exact ⟨by simpa using hreg, by simpa using hhan, by simpa using hcnt⟩
  · rw [emit_of_no_listeners env fuel st e args (by rw [hreg]; rfl)]
    right
    exact ⟨by simpa using hreg, by simpa using hcnt⟩

theorem oncePhase_handle (e0 fid h : Nat) (st : St)
    (hph : OncePhase e0 fid st) :
    OncePhase e0 fid (handleInvoke st h).1 := by
  rcases hph with ⟨hreg, hhan, hcnt⟩ | ⟨hreg, hcnt⟩
  · cases h with
    | zero =>
      have hget : st.handles[0]? = some ⟨e0, .onceAdapter 0 (.plain fid), true⟩ := by
        rw [hhan]
        rfl
      rw [handleInvoke_active st 0 _ hget rfl]
      right
      constructor
      · simp only
        rw [hreg]
        simp [remove, lookupEvent, deleteFromSet, removeEntry]
      · simp only
        rw [hcnt]
        exact Nat.zero_le 1
    | succ n =>
      have hget : st.handles[n + 1]? = none := by
        rw [hhan]
        rfl
      unfold handleInvoke
      rw [hget]
      exact Or.inl ⟨hreg, hhan, hcnt⟩
  · have hh := handleInvoke_empty_registry st h hreg
    right
    exact ⟨hh.1, by rw [hh.2]; exact hcnt⟩

theorem runEmitOps_phase (env : Env) (hs : SimpleBodies env) (e0 fid : Nat) :
    ∀ (ops : List EmitOp) (st : St), OncePhase e0 fid st →
    OncePhase e0 fid (runEmitOps env st ops) := by
  intro ops
  induction ops with
  | nil => intro st hph; exact hph
  | cons op ops ih =>
    intro st hph
    cases op with
    | emitE fuel e args =>
      exact ih _ (oncePhase_emit env hs e0 fid fuel e args st hph)
    | handleE h =>
      exact ih _ (oncePhase_handle e0 fid h st hph)

/-- C7: `once(e0, f)` installs an adapter that unsubscribes itself before
invoking `f`, so across any sequence of emissions and handle invocations
(including bodies that recursively emit `e0` before `f` returns, the
hypothesis restricting listener bodies to throws and emissions — no direct
registry writes), `f` is invoked at most once; the handle returned by
`once` removes the pending registration (returning `true`), and if it is
called before any emission, `f` is never invoked at all. -/
theorem once_at_most_once (env : Env) (e0 fid : Nat) (ops : List EmitOp)
    (hs : SimpleBodies env) :
    countInv (.plain fid)
        (runEmitOps env (once St.empty e0 (.plain fid)).1 ops).invLog ≤ 1
    ∧ (handleInvoke (once St.empty e0 (.plain fid)).1 0).2 = true
    ∧ (∀ ops2 : List EmitOp,
        countInv (.plain fid)
          (runEmitOps env
            (handleInvoke (once St.empty e0 (.plain fid)).1 0).1 ops2).invLog
          = 0) := by
  have h1 : (once St.empty e0 (.plain fid)).1
      = ⟨[(e0, [.onceAdapter 0 (.plain fid)])],
          [⟨e0, .onceAdapter 0 (.plain fid), true⟩], [], [],
          [.onT e0 (.onceAdapter 0 (.plain fid))]⟩ := rfl
  have hact := handleInvoke_active
    ⟨[(e0, [.onceAdapter 0 (.plain fid)])],
      [⟨e0, .onceAdapter 0 (.plain fid), true⟩], [], [],
      [.onT e0 (.onceAdapter 0 (.plain fid))]⟩ 0
    ⟨e0, .onceAdapter 0 (.plain fid), true⟩ rfl rfl
  have hrem : remove [(e0, [Listener.onceAdapter 0 (.plain fid)])] e0
      (.onceAdapter 0 (.plain fid)) = ([], true) := by
    simp [remove, lookupEvent, deleteFromSet, removeEntry]
  refine ⟨?_, ?_, ?_⟩
  · have hph := runEmitOps_phase env hs e0 fid ops
      (once St.empty e0 (.plain fid)).1
      (by rw [h1]; exact Or.inl ⟨rfl, rfl, rfl⟩)
    rcases hph with ⟨_, _, hc⟩ | ⟨_, hc⟩
    · rw [hc]
      exact Nat.zero_le 1
    · exact hc
  · rw [h1, hact]
    simp [hrem]
  · intro ops2
    have hreg : (handleInvoke (once St.empty e0 (.plain fid)).1 0).1.registry
        = [] := by
      rw [h1, hact]
      simp [hrem]
    have hinv : (handleInvoke (once St.empty e0 (.plain fid)).1 0).1.invLog
        = [] := by
      rw [h1, hact]
    have hops := runEmitOps_empty_registry env ops2 _ hreg
    rw [hops.2, hinv]
    rfl

theorem once_at_most_once_witness :
    SimpleBodies ⟨fun _ => [.emitStmt 4 []], fun _ => none, false⟩
    ∧ (countInv (.plain 3)
        (runEmitOps ⟨fun _ => [.emitStmt 4 []], fun _ => none, false⟩
          (once St.empty 4 (.plain 3)).1
          [.emitE 10 4 [], .emitE 10 4 []]).invLog ≤ 1
      ∧ (handleInvoke (once St.empty 4 (.plain 3)).1 0).2 = true
      ∧ (∀ ops2 : List EmitOp,
          countInv (.plain 3)
            (runEmitOps ⟨fun _ => [.emitStmt 4 []], fun _ => none, false⟩
              (handleInvoke (once St.empty 4 (.plain 3)).1 0).1 ops2).invLog
            = 0)) :=
  ⟨by
    intro id s hsm
    simp at hsm
    subst hsm
    exact Or.inr ⟨4, [], rfl⟩,
   once_at_most_once ⟨fun _ => [.emitStmt 4 []], fun _ => none, false⟩ 4 3
    [.emitE 10 4 [], .emitE 10 4 []]
    (by
      intro id s hsm
      simp at hsm
      subst hsm
      exact Or.inr ⟨4, [], rfl⟩)⟩

/-! ## The registry well-formedness invariant (C4) -/

/-- Well-formedness of the registry: every entry holds a non-empty
listener set, and event keys are not duplicated. -/
def WFreg (r : Registry) : Prop :=
  (∀ p ∈ r, ¬ p.2 = []) ∧ (r.map Prod.fst).Nodup

theorem addToSet_ne_nil (ls : List Listener) (l : Listener) :
    ¬ addToSet ls l = [] := by
  unfold addToSet
  by_cases h : l ∈ ls
  · simp [h]
    intro hc
    rw [hc] at h
    simp at h
  · simp [h]

theorem updateEntry_keys (r : Registry) (e : Nat)
    (g : List Listener → List Listener) :
    (updateEntry r e g).map Prod.fst = r.map Prod.fst := by
  induction r with
  | nil => rfl
  | cons p r ih =>
    by_cases hp : p.1 = e <;> simp [updateEntry, hp, ih]

theorem updateEntry_entries_ne_nil (r : Registry) (e : Nat)
    (g : List Listener → List Listener)
    (h : ∀ p ∈ r, ¬ p.2 = []) (hg : ∀ s, ¬ g s = []) :
    ∀ p ∈ updateEntry r e g, ¬ p.2 = [] := by
  induction r with
  | nil => simp [updateEntry]
  | cons p r ih =>
    have hr := fun q hq => h q (List.mem_cons_of_mem p hq)
    by_cases hp : p.1 = e
    · simp only [updateEntry, if_pos hp]
      intro q hq
      rcases List.mem_cons.mp hq with rfl | hq2
      · exact hg p.2
      · exact ih hr q hq2
    · simp only [updateEntry, if_neg hp]
      intro q hq
      rcases List.mem_cons.mp hq with rfl | hq2
      · exact h q (List.mem_cons_self q r)
      · exact ih hr q hq2

theorem removeEntry_sublist (r : Registry) (e : Nat) :
    (removeEntry r e).Sublist r := by
  induction r with
  | nil => simp [removeEntry]
  | cons p r ih =>
    by_cases hp : p.1 = e
    · simp only [removeEntry, if_pos hp]
      exact ih.cons p
    · simp only [removeEntry, if_neg hp]
      exact ih.cons₂ p

theorem add_WF (r : Registry) (e : Nat) (l : Listener) (h : WFreg r) :
    WFreg (add r e l) := by
  unfold add
  cases hl : lookupEvent r e with
  | none =>
    constructor
    · intro p hp
      rcases List.mem_append.mp hp with hm | hm
      · exact h.1 p hm
      · simp at hm
        subst hm
        simp
    · rw [List.map_append]
      refine h.2.append (by simp) ?_
      intro a ha hb
      simp at hb
      subst hb
      rcases List.mem_map.mp ha with ⟨q, hq, hqe⟩
      exact lookupEvent_eq_none.mp hl q hq hqe
  | some ls =>
    exact ⟨updateEntry_entries_ne_nil r e _ h.1 (fun s => addToSet_ne_nil s l),
      by rw [updateEntry_keys]; exact h.2⟩

theorem remove_WF (r : Registry) (e : Nat) (l : Listener) (h : WFreg r) :
    WFreg (remove r e l).1 := by
  unfold remove
  cases hl : lookupEvent r e with
  | none => exact h
  | some ls =>
    simp only
    by_cases hemp : (deleteFromSet ls l).isEmpty
    · rw [if_pos hemp]
      refine ⟨fun p hp => h.1 p ((removeEntry_sublist r e).mem hp), ?_⟩
      exact h.2.sublist ((removeEntry_sublist r e).map Prod.fst)
    · rw [if_neg hemp]
      refine ⟨updateEntry_entries_ne_nil r e _ h.1 (fun _ => ?_), ?_⟩
      · intro hc
        rw [hc] at hemp
        simp at hemp
      · rw [updateEntry_keys]
        exact h.2

theorem handleInvoke_WF (st : St) (hid : Nat) (h : WFreg st.registry) :
    WFreg (handleInvoke st hid).1.registry := by
  unfold handleInvoke
  cases hg : st.handles[hid]? with
  | none => exact h
  | some hr =>
    cases ha : hr.active with
    | false => simp [ha]; exact h
    | true =>
      simp only [ha, if_true]
      exact remove_WF _ _ _ h

theorem onOp_WF (st : St) (e : Nat) (l : Listener) (h : WFreg st.registry) :
    WFreg (onOp st e l).1.registry := by
  exact add_WF _ e l (by simpa using h)

theorem once_WF (st : St) (e : Nat) (f : Listener) (h : WFreg st.registry) :
    WFreg (once st e f).1.registry :=
  onOp_WF st e _ h

theorem off_WF (st : St) (e : Nat) (l : Listener) (h : WFreg st.registry) :
    WFreg (off st e l).1.registry := by
  exact remove_WF _ e l (by simpa using h)

theorem interp_WF (env : Env) : ∀ fuel : Nat,
    (∀ (st : St) (args : List Nat) (ss : List Stmt), WFreg st.registry →
      WFreg (execStmts env fuel st args ss).1.registry)
    ∧ (∀ (st : St) (l : Listener) (args : List Nat), WFreg st.registry →
      WFreg (invokeListener env fuel st l args).1.registry)
    ∧ (∀ (st : St) (e : Nat) (args : List Nat) (ls : List Listener),
        WFreg st.registry →
      WFreg (emitLoop env fuel st e args ls).1.registry)
    ∧ (∀ (st : St) (e : Nat) (args : List Nat), WFreg st.registry →
      WFreg (emit env fuel st e args).1.registry) := by
  intro fuel
  induction fuel using Nat.strong_induction_on with
  | _ fuel ih =>
    have hexec : ∀ (ss : List Stmt) (st : St) (args : List Nat),
        WFreg st.registry →
        WFreg (execStmts env fuel st args ss).1.registry := by
      intro ss
      induction ss with
      | nil => intro st args h; simpa [execStmts] using h
      | cons s rest ihs =>
        intro st args h
        cases s with
        | throwErr k => simpa [execStmts] using h
        | callHandle hid =>
          simp only [execStmts]
          exact ihs _ args (handleInvoke_WF st hid h)
        | onStmt e l =>
          simp only [execStmts]
          exact ihs _ args (onOp_WF st e l h)
        | offStmt e l =>
          simp only [execStmts]
          exact ihs _ args (off_WF st e l h)
        | emitStmt e as =>
          cases fuel with
          | zero => simpa [execStmts] using h
          | succ fl =>
            have hemit := (ih fl (Nat.lt_succ_self fl)).2.2.2 st e as h
            cases hr : emit env fl st e as with
            | mk st2 out =>
              rw [hr] at hemit
              cases out with
              | ok =>
                simp only [execStmts, hr]
                exact ihs _ args hemit
              | err er => simpa [execStmts, hr] using hemit
              | outOfFuel => simpa [execStmts, hr] using hemit
    have hinvoke : ∀ (l : Listener) (st : St) (args : List Nat),
        WFreg st.registry →
        WFreg (invokeListener env fuel st l args).1.registry := by
      intro l st args h
      cases l with
      | plain id =>
        simp only [invokeListener]
        exact hexec (env.body id) _ args (by simpa using h)
      | onceAdapter hid f =>
        cases fuel with
        | zero => simpa [invokeListener] using h
        | succ fl =>
          simp only [invokeListener]
          exact (ih fl (Nat.lt_succ_self fl)).2.1 _ f args
            (handleInvoke_WF _ hid (by simpa using h))
    have hloop : ∀ (ls : List Listener) (st : St) (e : Nat)
        (args : List Nat), WFreg st.registry →
        WFreg (emitLoop env fuel st e args ls).1.registry := by
      intro ls
      induction ls with
      | nil => intro st e args h; simpa [emitLoop] using h
      | cons l rest ihl =>
        intro st e args h
        by_cases hm : l ∈ getListeners st.registry e
        · simp only [emitLoop, if_pos hm]
          cases hr : invokeListener env fuel st l args with
          | mk st2 out =>
            have h2 := hinvoke l st args h
            rw [hr] at h2
            cases out with
            | ok => exact ihl st2 e args h2
            | err er =>
              cases hstrict : env.strict with
              | true => simpa [hstrict] using h2
              | false =>
                simp only [hstrict, Bool.false_eq_true, if_false]
                exact ihl _ e args (by simpa using h2)
            | outOfFuel => exact h2
        · simp only [emitLoop, if_neg hm]
          exact ihl st e args h
    have hemitp : ∀ (st : St) (e : Nat) (args : List Nat),
        WFreg st.registry →
        WFreg (emit env fuel st e args).1.registry := by
      intro st e args h
      simp only [emit]
      by_cases hemp : (getListeners st.registry e).isEmpty
      · simpa [hemp] using h
      · simp only [hemp, Bool.false_eq_true, if_false]
        exact hloop _ _ e args (by simpa using h)
    exact ⟨fun st args ss h => hexec ss st args h, 
      fun st l args h => hinvoke l st args h,
      fun st e args ls h => hloop ls st e args h,
      hemitp⟩

theorem emitAsyncLoop_WF (env : Env) (fuel : Nat) (e : Nat)
    (args : List Nat) :
    ∀ (ls : List Listener) (st : St), WFreg st.registry →
    WFreg (emitAsyncLoop env fuel st e args ls).1.registry := by
  intro ls
  induction ls with
  | nil => intro st h; simpa [emitAsyncLoop] using h
  | cons l rest ih =>
    intro st h
    simp only [emitAsyncLoop]
    cases hr : invokeListener env fuel st l args with
    | mk st2 out =>
      have h2 := (interp_WF env fuel).2.1 st l args h
      rw [hr] at h2
      cases out with
      | ok =>
        cases hrr : emitAsyncLoop env fuel st2 e args rest with
        | mk st3 rest2 =>
          have h3 := ih st2 h2
          rw [hrr] at h3
          simpa using h3
      | err er =>
        simpa using ih (pushErr st2 er e l) (by simpa using h2)
      | outOfFuel => exact h2

theorem emitAsync_WF (env : Env) (fuel : Nat) (st : St) (e : Nat)
    (args : List Nat) (h : WFreg st.registry) :
    WFreg (emitAsync env fuel st e args).1.registry := by
  unfold emitAsync
  by_cases hemp : (getListeners st.registry e).isEmpty
  · simpa [hemp] using h
  · simp only [hemp, Bool.false_eq_true, if_false]
    cases hrr : emitAsyncLoop env fuel
        (pushTrace st (.emitAsyncT (getListeners st.registry e) e args)) e args
        (getListeners st.registry e) with
    | mk st2 rest2 =>
      have h2 := emitAsyncLoop_WF env fuel e args (getListeners st.registry e)
        (pushTrace st (.emitAsyncT (getListeners st.registry e) e args))
        (by simpa using h)
      rw [hrr] at h2
      cases rest2 with
      | none => exact h2
      | some settles =>
        cases hstrict : env.strict with
        | false => simpa [hstrict] using h2
        | true =>
          cases hfr : firstRejection settles <;> simpa [hstrict, hfr] using h2

/-- A top-level call on the attached instance: subscribe, subscribe-once,
unsubscribe, invoke a subscription handle, or one of the two emissions. -/
inductive Op where
  | onO (e : Nat) (l : Listener)
  | onceO (e : Nat) (f : Listener)
  | offO (e : Nat) (l : Listener)
  | handleO (h : Nat)
  | emitO (fuel : Nat) (e : Nat) (args : List Nat)
  | emitAsyncO (fuel : Nat) (e : Nat) (args : List Nat)

def runOp (env : Env) (st : St) : Op → St
  | .onO e l => (onOp st e l).1
  | .onceO e f => (once st e f).1
  | .offO e l => (off st e l).1
  | .handleO h => (handleInvoke st h).1
  | .emitO fuel e args => (emit env fuel st e args).1
  | .emitAsyncO fuel e args => (emitAsync env fuel st e args).1

def runOps (env : Env) : St → List Op → St
  | st, [] => st
  | st, op :: ops => runOps env (runOp env st op) ops

theorem runOp_WF (env : Env) (st : St) (op : Op) (h : WFreg st.registry) :
    WFreg (runOp env st op).registry := by
  cases op with
  | onO e l => exact onOp_WF st e l h
  | onceO e f => exact once_WF st e f h
  | offO e l => exact off_WF st e l h
  | handleO hid => exact handleInvoke_WF st hid h
  | emitO fuel e args => exact (interp_WF env fuel).2.2.2 st e args h
  | emitAsyncO fuel e args => exact emitAsync_WF env fuel st e args h

theorem runOps_WF (env : Env) :
    ∀ (ops : List Op) (st : St), WFreg st.registry →
    WFreg (runOps env st ops).registry := by
  intro ops
  induction ops with
  | nil => intro st h; exact h
  | cons op ops ih =>
    intro st h
    exact ih _ (runOp_WF env st op h)

theorem WFreg_exists_iff (r : Registry) (h : WFreg r) (e : Nat) :
    (∃ p ∈ r, p.1 = e) ↔ has r e = true := by
  constructor
  · intro hex
    obtain ⟨ls, hls⟩ := exists_key_lookup hex
    have hmem := lookupEvent_some_mem hls
    have hne := h.1 _ hmem
    simp only at hne
    simp [has, getListeners, hls, List.isEmpty_iff, hne]
  · intro hh
    cases hl : lookupEvent r e with
    | none => simp [has, getListeners, hl] at hh
    | some ls => exact ⟨(e, ls), lookupEvent_some_mem hl, rfl⟩

/-- C4: in every state reachable from a fresh instance by any sequence of
`on`, `once`, `off`, handle invocations, `emit` and `emitAsync` calls
(with listeners free to mutate the registry mid-emission), no registry
entry ever holds an empty listener set, and an entry for an event exists
iff the event has at least one listener (`has`). -/
theorem registry_entry_iff_listeners (env : Env) (ops : List Op) (e : Nat) :
    (∀ p ∈ (runOps env St.empty ops).registry, ¬ p.2 = [])
    ∧ ((∃ p ∈ (runOps env St.empty ops).registry, p.1 = e)
        ↔ has (runOps env St.empty ops).registry e = true) := by
  have hwf : WFreg (runOps env St.empty ops).registry :=
    runOps_WF env ops St.empty
      ⟨fun p hp => absurd hp (List.not_mem_nil p), List.nodup_nil⟩
  exact ⟨hwf.1, WFreg_exists_iff _ hwf e⟩

end Eventful
